import Mathlib

/-! libequaio: the derivation state machine `Task` and the block display

A shallow embedding of `src/src/interface.cpp` and `src/src/block_display.cpp`
over the data model of `src/include/expression.h`.

Conventions of the embedding.

* C++ value types become Lean values; a member function that mutates `*this`
  becomes a function returning the new state.
* A `bool`-returning member of `Task` becomes a function into `Bool × Task`.
  Where the C++ body can leave by an exception or by an out-of-range access
  (`optional::value()` on an empty optional, `children[i]` past the end, a
  collaborator whose precondition is violated) the result is wrapped in
  `Option`, and `none` stands for "the call does not return normally".
* The functions of this repository whose bodies live in files other than the
  three embedded here (parser, `expression.cpp`, `arithmetic.cpp`) are fields
  of the structure `Env`; every theorem that does not name a concrete `Env`
  holds for all of them.
-/

namespace Equaio

/-! ## Data model (`expression.h`) -/

/-- The C++ `typedef vector<int> address`. -/
abbrev address := List Int

/-- The C++ enum `ExpType`. -/
inductive ExpType where
  | EXPRESSION_OPERATOR_BINARY
  | EXPRESSION_OPERATOR_UNARY
  | EXPRESSION_VALUE
deriving DecidableEq, Repr

/-- The C++ struct `Context`. -/
structure Context where
  «variables» : List String
  binary_operators : List String
  unary_operators : List String
  handle_numerics : Bool
deriving DecidableEq, Repr

/-- The C++ struct `Expression`: type, symbol, bracketed flag, children. -/
inductive Expression where
  | mk (type : ExpType) (symbol : String) (bracketed : Bool) (children : List Expression)

namespace Expression

/-- Field `type`. -/
def type : Expression → ExpType
  | mk t _ _ _ => t

/-- Field `symbol`. -/
def symbol : Expression → String
  | mk _ s _ _ => s

/-- Field `bracketed`. -/
def bracketed : Expression → Bool
  | mk _ _ b _ => b

/-- Field `children`. -/
def children : Expression → List Expression
  | mk _ _ _ cs => cs

/-- A value-initialised `Expression{}`: the first enumerator, the empty
string, `false`, no children. -/
def value_initialized : Expression :=
  mk ExpType.EXPRESSION_OPERATOR_BINARY "" false []

instance : Inhabited Expression := ⟨value_initialized⟩

mutual
/-- Modelled from the spec: `Expression::copy` (body in `expression.cpp`), the
structural copy of a value tree: same tag, symbol and bracketed flag, children
copied recursively. -/
def copy : Expression → Expression
  | mk t s b cs => mk t s b (copy_children cs)
/-- The children of a copy. -/
def copy_children : List Expression → List Expression
  | [] => []
  | c :: cs => copy c :: copy_children cs
end

mutual
/-- Modelled from the spec: `operator==` (body in `expression.cpp`), deep
structural equality over tag, symbol, bracketed flag and children. -/
def beq : Expression → Expression → Bool
  | mk t1 s1 b1 c1, mk t2 s2 b2 c2 =>
    decide (t1 = t2) && decide (s1 = s2) && decide (b1 = b2) && beq_children c1 c2
/-- Pointwise equality of two child vectors. -/
def beq_children : List Expression → List Expression → Bool
  | [], [] => true
  | a :: as, b :: bs => beq a b && beq_children as bs
  | _, _ => false
end

/-- Modelled from the spec: `Expression::create_equality` (body in
`expression.cpp`), the binary node with the equality symbol `=` whose left
child is `lhs` and whose right child is `rhs`. -/
def create_equality (lhs rhs : Expression) : Expression :=
  mk ExpType.EXPRESSION_OPERATOR_BINARY "=" false [lhs, rhs]

/-- Modelled from the spec: `Expression::create_symbol` (body in
`expression.cpp`), the value leaf carrying `symbol`. -/
def create_symbol (symbol : String) : Expression :=
  mk ExpType.EXPRESSION_VALUE symbol false []

mutual
/-- Height of a tree: a leaf has height 1. -/
def height : Expression → Nat
  | mk _ _ _ cs => height_children cs + 1
/-- Largest height among a list of trees. -/
def height_children : List Expression → Nat
  | [] => 0
  | c :: cs => max (height c) (height_children cs)
end

end Expression

/-- Modelled from the spec: `Expression::at` (body in `expression.cpp`), the
subtree at a path; every index must be in range for its node, otherwise the
access is a contract violation (`none`). -/
def Expression.at : Expression → address → Option Expression
  | e, [] => some e
  | e, i :: rest =>
    if i < 0 then none
    else
      match e.children.get? i.toNat with
      | none => none
      | some c => Expression.at c rest

/-! ## The rule map (`std::map<string, Expression>`) -/

/-- The C++ `map<string, Expression>` as an association list. Keys are unique
in every map built from the empty one by `RuleMap.insert` and `RuleMap.index`.
The iteration order of the C++ map is not represented. -/
abbrev RuleMap := List (String × Expression)

/-- Lookup by key, the C++ `map::find`. -/
def RuleMap.find (m : RuleMap) (key : String) : Option Expression :=
  match m with
  | [] => none
  | (k, v) :: rest => if k == key then some v else RuleMap.find rest key

/-- The helper `map_contain(key, map)` of `utils.h`: whether `key` is bound. -/
def map_contain (key : String) (m : RuleMap) : Bool :=
  (RuleMap.find m key).isSome

/-- The C++ `map::insert({key, value})`: adds the binding when `key` is not
bound, and leaves the map as it is when `key` is already bound. -/
def RuleMap.insert (m : RuleMap) (key : String) (value : Expression) : RuleMap :=
  if map_contain key m then m else m ++ [(key, value)]

/-- The C++ `map::operator[]`: the value bound to `key`; when `key` is not
bound, a value-initialised element is inserted first. Returns the value and
the map after the access. -/
def RuleMap.index (m : RuleMap) (key : String) : Expression × RuleMap :=
  match RuleMap.find m key with
  | some v => (v, m)
  | none => (Expression.value_initialized, m ++ [(key, Expression.value_initialized)])

/-! ## Collaborators whose bodies are outside the embedded files -/

/-- The functions `interface.cpp` calls and does not define, over an
arbitrary enumeration `Operator` of arithmetic operators
(`Arithmetic::Operator`).

`apply_rule_equal`, `is_in_same_operator_chain` and `swap_two_element` take
the receiver expression first; they return `none` when the call does not
return normally (a violated precondition such as an address that does not
resolve). `swap_two_element` returns the receiver after the in-place swap. -/
structure Env (Operator : Type) where
  parse_statement : String → String → Context → Option Expression
  parse_expression : String → Context → Option Expression
  to_string : Expression → String
  apply_rule_equal : Expression → Expression → Context → Option (List Expression)
  is_in_same_operator_chain : Expression → address → address → Option Bool
  swap_two_element : Expression → address → address → Option Expression
  operator_symbol : Operator → String
  operator_name : Operator → String
  create_calculation : String → String → Operator → Option Expression
  turn_subtraction_to_addition : Expression → Expression
  turn_addition_to_subtraction : Expression → Expression
  turn_division_to_multiplication : Expression → Expression
  turn_multiplication_to_division : Expression → Expression
  remove_assoc_parentheses : Expression → Expression

/-! ## `Task` (`interface.cpp`) -/

/-- The C++ class `Task` (declared in `interface.h`): the fields read and
written by `interface.cpp`. -/
structure Task where
  context : Context
  rules : RuleMap
  history : List (Expression × String)
  current : Option Expression
  target : Option Expression
  error_messages : List String
  print_rhs_only : Bool

/-- Modelled from the spec: a `Task` as created with a `Context`: `current`
and `target` unset, no rules, no history, no error messages. -/
def Task.create (ctx : Context) : Task :=
  { context := ctx, rules := [], history := [], current := none, target := none,
    error_messages := [], print_rhs_only := false }

/-- The statement `this->error_messages.push_back(msg)`. -/
def Task.push_error (t : Task) (msg : String) : Task :=
  { t with error_messages := t.error_messages ++ [msg] }

/-- `Task::set_current_expr`. -/
def Task.set_current_expr (t : Task) (expr : Expression) (msg : String) : Task :=
  { t with current := some expr, history := t.history ++ [(expr, msg)] }

section ops
variable {Operator : Type}

/-- `Task::set_current_eq`. -/
def Task.set_current_eq (env : Env Operator) (t : Task) (exprstr : String) : Bool × Task :=
  match env.parse_statement exprstr "=" t.context with
  | none => (false, t)
  | some expr => (true, t.set_current_expr expr "")

/-- `Task::set_target_eq`. -/
def Task.set_target_eq (env : Env Operator) (t : Task) (exprstr : String) : Bool × Task :=
  match env.parse_statement exprstr "=" t.context with
  | none => (false, t)
  | some target => (true, { t with target := some target })

/-- `Task::add_rule_expr`. -/
def Task.add_rule_expr (t : Task) (name : String) (expr : Expression) : Task :=
  { t with rules := RuleMap.insert t.rules name expr }

/-- `Task::add_rule_eq`. -/
def Task.add_rule_eq (env : Env Operator) (t : Task) (name exprstr : String) : Task :=
  match env.parse_statement exprstr "=" t.context with
  | none => t.push_error ("failed to parse rule: " ++ exprstr)
  | some expr => t.add_rule_expr name expr

/-- `Task::init_current_with_target_lhs`; `none` when `children[0]` of the
target is out of range. -/
def Task.init_current_with_target_lhs (t : Task) : Option Task :=
  match t.target with
  | none => some (t.push_error "target statement is not set")
  | some target =>
    match target.children.get? 0 with
    | none => none
    | some lhs => some { t with current := some (Expression.create_equality lhs lhs) }

mutual
/-- The free function `replace_expression_symbol(expr, from_symbol, to)`: the
value of `expr` after the call. The loop runs over the children of `expr`; a
child whose symbol is `from_symbol` is overwritten by a copy of `to`, any
other child is processed recursively. -/
def replace_expression_symbol (expr : Expression) (from_symbol : String)
    (to_ : Expression) : Expression :=
  match expr with
  | .mk t s b cs => .mk t s b (replace_expression_symbol_loop cs from_symbol to_)
/-- The body of the `for (auto &child : expr.children)` loop. -/
def replace_expression_symbol_loop (cs : List Expression) (from_symbol : String)
    (to_ : Expression) : List Expression :=
  match cs with
  | [] => []
  | child :: rest =>
    (if child.symbol == from_symbol then to_.copy
     else replace_expression_symbol child from_symbol to_)
      :: replace_expression_symbol_loop rest from_symbol to_
end

/-- `Task::apply_function_to_both_side_expr`; `none` when `children[0]` or
`children[1]` of the current statement is out of range. -/
def Task.apply_function_to_both_side_expr (env : Env Operator) (t : Task)
    (fexpr : Expression) (varname custom_name : String) : Option (Bool × Task) :=
  match t.current with
  | none => some (false, t.push_error "current statement is not set")
  | some cur =>
    if cur.symbol != "=" then
      some (false, t.push_error "current statement is not an equality")
    else
      let custom_name :=
        if custom_name == "" then "apply " ++ env.to_string fexpr ++ " to both side"
        else custom_name
      match cur.children.get? 0, cur.children.get? 1 with
      | some lhs, some rhs =>
        let new_lhs := replace_expression_symbol fexpr.copy varname lhs
        let new_rhs := replace_expression_symbol fexpr.copy varname rhs
        let newexpr := Expression.create_equality new_lhs new_rhs
        some (true, t.set_current_expr newexpr custom_name)
      | _, _ => none

/-- `Task::apply_function_to_both_side`. -/
def Task.apply_function_to_both_side (env : Env Operator) (t : Task)
    (fstr varname custom_name : String) : Option (Bool × Task) :=
  match env.parse_expression fstr t.context with
  | none => some (false, t.push_error ("failed to parse function: " ++ fstr))
  | some fexpr =>
    let custom_name :=
      if custom_name == "" then "apply " ++ fstr ++ " to both side" else custom_name
    Task.apply_function_to_both_side_expr env t fexpr varname custom_name

/-- `Task::apply_rule_expr`; `none` when `apply_rule_equal` does not return. -/
def Task.apply_rule_expr (env : Env Operator) (t : Task) (expr : Expression)
    (name : String) : Option (Bool × Task) :=
  match t.current with
  | none => some (false, t.push_error "current statement is not set")
  | some cur =>
    if cur.symbol != "=" then
      some (false, t.push_error "current statement is not an equality")
    else
      match env.apply_rule_equal cur expr t.context with
      | none => none
      | some [] => some (false, t.push_error ("failed to apply rule: " ++ name))
      | some (newcurrent :: _) => some (true, t.set_current_expr newcurrent name)

/-- `Task::apply_rule`. The access `this->rules[rulename]` goes through
`RuleMap.index`. -/
def Task.apply_rule (env : Env Operator) (t : Task) (rulename custom_name : String) :
    Option (Bool × Task) :=
  if !map_contain rulename t.rules then
    some (false, t.push_error ("rule " ++ rulename ++ " is not defined"))
  else
    let custom_name := if custom_name == "" then "apply rule: " ++ rulename else custom_name
    let access := RuleMap.index t.rules rulename
    Task.apply_rule_expr env { t with rules := access.2 } access.1 custom_name

/-- `Task::try_swap_two_element`; `none` when a collaborator does not return. -/
def Task.try_swap_two_element (env : Env Operator) (t : Task) (addr1 addr2 : address)
    (custom_name : String) : Option (Bool × Task) :=
  match t.current with
  | none => some (false, t.push_error "current statement is not set")
  | some cur =>
    let expr := cur.copy
    match env.is_in_same_operator_chain expr addr1 addr2 with
    | none => none
    | some false =>
      some (false, t.push_error
        "trying to swap, but the two element are not in the same operator chain")
    | some true =>
      let custom_name := if custom_name == "" then "rearrange" else custom_name
      match env.swap_two_element expr addr1 addr2 with
      | none => none
      | some swapped => some (true, t.set_current_expr swapped custom_name)

/-- `Task::apply_arithmetic_to_both_side`. -/
def Task.apply_arithmetic_to_both_side (env : Env Operator) (t : Task) (op : Operator)
    (value custom_name : String) : Option (Bool × Task) :=
  let varname := "X"
  let expr := Expression.mk ExpType.EXPRESSION_OPERATOR_BINARY (env.operator_symbol op) false
    [Expression.create_symbol varname, Expression.create_symbol value]
  let custom_name :=
    if custom_name == "" then env.operator_name op ++ " both side by " ++ value
    else custom_name
  Task.apply_function_to_both_side_expr env t expr varname custom_name

/-- `Task::apply_arithmetic_calculation`. -/
def Task.apply_arithmetic_calculation (env : Env Operator) (t : Task) (left right : String)
    (op : Operator) (custom_name : String) : Option (Bool × Task) :=
  match env.create_calculation left right op with
  | none =>
    some (false, t.push_error
      ("failed to create calculation: " ++ left ++ " " ++ env.operator_name op ++ " " ++ right))
  | some expr =>
    let custom_name :=
      if custom_name == "" then "calculate " ++ env.to_string expr else custom_name
    Task.apply_rule_expr env t expr custom_name

/-- `Task::apply_arithmetic_turn_subtraction_to_addition`; `none` when
`this->current.value()` throws on an empty optional. -/
def Task.apply_arithmetic_turn_subtraction_to_addition (env : Env Operator) (t : Task)
    (custom_name : String) : Option (Bool × Task) :=
  let custom_name := if custom_name == "" then "turn subtraction to addition" else custom_name
  match t.current with
  | none => none
  | some cur => some (true, t.set_current_expr (env.turn_subtraction_to_addition cur) custom_name)

/-- `Task::apply_arithmetic_turn_addition_to_subtraction`; `none` when
`this->current.value()` throws on an empty optional. -/
def Task.apply_arithmetic_turn_addition_to_subtraction (env : Env Operator) (t : Task)
    (custom_name : String) : Option (Bool × Task) :=
  let custom_name := if custom_name == "" then "turn addition to subtraction" else custom_name
  match t.current with
  | none => none
  | some cur => some (true, t.set_current_expr (env.turn_addition_to_subtraction cur) custom_name)

/-- `Task::apply_arithmetic_turn_division_to_multiplication`; `none` when
`this->current.value()` throws on an empty optional. -/
def Task.apply_arithmetic_turn_division_to_multiplication (env : Env Operator) (t : Task)
    (custom_name : String) : Option (Bool × Task) :=
  let custom_name :=
    if custom_name == "" then "turn division to multiplication" else custom_name
  match t.current with
  | none => none
  | some cur =>
    some (true, t.set_current_expr (env.turn_division_to_multiplication cur) custom_name)

/-- `Task::apply_arithmetic_turn_multiplication_to_division`; `none` when
`this->current.value()` throws on an empty optional. -/
def Task.apply_arithmetic_turn_multiplication_to_division (env : Env Operator) (t : Task)
    (custom_name : String) : Option (Bool × Task) :=
  let custom_name :=
    if custom_name == "" then "turn multiplication to division" else custom_name
  match t.current with
  | none => none
  | some cur =>
    some (true, t.set_current_expr (env.turn_multiplication_to_division cur) custom_name)

/-- `Task::apply_arithmetic_remove_assoc_parentheses`; `none` when
`this->current.value()` throws on an empty optional. -/
def Task.apply_arithmetic_remove_assoc_parentheses (env : Env Operator) (t : Task)
    (custom_name : String) : Option (Bool × Task) :=
  let custom_name :=
    if custom_name == "" then "remove associative parenthesis" else custom_name
  match t.current with
  | none => none
  | some cur => some (true, t.set_current_expr (env.remove_assoc_parentheses cur) custom_name)

mutual
/-- Substitution as the derivation table words it: every leaf (a node without
children) whose symbol is `varname` is replaced by `e`, every other node is
kept. -/
def substitute_leaves (f : Expression) (varname : String) (e : Expression) : Expression :=
  match f with
  | .mk t s b cs =>
    if cs.isEmpty && s == varname then e
    else .mk t s b (substitute_leaves_children cs varname e)
/-- The leaf substitution on a child vector. -/
def substitute_leaves_children (cs : List Expression) (varname : String)
    (e : Expression) : List Expression :=
  match cs with
  | [] => []
  | c :: rest => substitute_leaves c varname e :: substitute_leaves_children rest varname e
end

mutual
/-- Substitution by symbol: every node whose symbol is `varname`, leaf or not,
is replaced by `e`; the search does not continue inside a replaced node. -/
def substitute_symbol (f : Expression) (varname : String) (e : Expression) : Expression :=
  match f with
  | .mk t s b cs =>
    if s == varname then e else .mk t s b (substitute_symbol_children cs varname e)
/-- The symbol substitution on a child vector. -/
def substitute_symbol_children (cs : List Expression) (varname : String)
    (e : Expression) : List Expression :=
  match cs with
  | [] => []
  | c :: rest => substitute_symbol c varname e :: substitute_symbol_children rest varname e
end

/-! ## Calls of the `bool`-returning operations -/

/-- One call of a `bool`-returning member of `Task`, with its arguments. -/
inductive Call (Operator : Type) where
  | set_current_eq (exprstr : String)
  | set_target_eq (exprstr : String)
  | apply_function_to_both_side_expr (fexpr : Expression) (varname custom_name : String)
  | apply_function_to_both_side (fstr varname custom_name : String)
  | apply_rule_expr (expr : Expression) (name : String)
  | apply_rule (rulename custom_name : String)
  | try_swap_two_element (addr1 addr2 : address) (custom_name : String)
  | apply_arithmetic_to_both_side (op : Operator) (value custom_name : String)
  | apply_arithmetic_calculation (left right : String) (op : Operator) (custom_name : String)

/-- Whether the call is `set_target_eq`, the one operation of `Call` that
reports success without going through `set_current_expr`. -/
def Call.is_set_target : Call Operator → Bool
  | .set_target_eq _ => true
  | _ => false

/-- Performs one call on a task: the returned `bool` and the task after the
call, or `none` when the call does not return normally. -/
def Call.run (env : Env Operator) (t : Task) : Call Operator → Option (Bool × Task)
  | .set_current_eq exprstr => some (Task.set_current_eq env t exprstr)
  | .set_target_eq exprstr => some (Task.set_target_eq env t exprstr)
  | .apply_function_to_both_side_expr fexpr varname custom_name =>
    Task.apply_function_to_both_side_expr env t fexpr varname custom_name
  | .apply_function_to_both_side fstr varname custom_name =>
    Task.apply_function_to_both_side env t fstr varname custom_name
  | .apply_rule_expr expr name => Task.apply_rule_expr env t expr name
  | .apply_rule rulename custom_name => Task.apply_rule env t rulename custom_name
  | .try_swap_two_element addr1 addr2 custom_name =>
    Task.try_swap_two_element env t addr1 addr2 custom_name
  | .apply_arithmetic_to_both_side op value custom_name =>
    Task.apply_arithmetic_to_both_side env t op value custom_name
  | .apply_arithmetic_calculation left right op custom_name =>
    Task.apply_arithmetic_calculation env t left right op custom_name

/-- Performs a sequence of calls in order: the list of returned `bool`s and
the final task, or `none` when one of the calls does not return normally. -/
def run_calls (env : Env Operator) : Task → List (Call Operator) → Option (List Bool × Task)
  | t, [] => some ([], t)
  | t, c :: rest =>
    match Call.run env t c with
    | none => none
    | some (b, t1) =>
      match run_calls env t1 rest with
      | none => none
      | some (bs, t2) => some (b :: bs, t2)

end ops

/-! ## Block display (`block_display.cpp`) -/

namespace BlockDisplay

/-- The block kinds used by `block_display.cpp`. -/
inductive BlockType where
  | BASIC
  | VALUE
  | FRAC
deriving DecidableEq, Repr

/-- The metadata of a block: the address of the node it renders and the
addresses of its left and right neighbours. The pointer to the rendered root
that the C++ struct also stores is not represented. -/
structure Metadata where
  addr : address
  leftaddr : address
  rightaddr : address
deriving DecidableEq, Repr

/-- A value-initialised `Metadata{}`. -/
def Metadata.empty : Metadata := { addr := [], leftaddr := [], rightaddr := [] }

/-- The C++ struct `Block`: type, value, children, metadata. -/
inductive Block where
  | mk (type : BlockType) (value : String) (children : List Block) (metadata : Metadata)

namespace Block

/-- Field `type`. -/
def type : Block → BlockType
  | mk ty _ _ _ => ty

/-- Field `value`. -/
def value : Block → String
  | mk _ v _ _ => v

/-- Field `children`. -/
def children : Block → List Block
  | mk _ _ cs _ => cs

/-- Field `metadata`. -/
def metadata : Block → Metadata
  | mk _ _ _ md => md

/-- `Block::append(Block b)`. -/
def append : Block → Block → Block
  | mk ty v cs md, b => mk ty v (cs ++ [b]) md

/-- `Block::append(vector<Block> b)`. -/
def append_all : Block → List Block → Block
  | mk ty v cs md, bs => mk ty v (cs ++ bs) md

/-- `Block::prepend(Block b)`. -/
def prepend : Block → Block → Block
  | mk ty v cs md, b => mk ty v (b :: cs) md

/-- `Block::prepend(vector<Block> b)`. -/
def prepend_all : Block → List Block → Block
  | mk ty v cs md, bs => mk ty v (bs ++ cs) md

/-- The block with its `leftaddr` and `rightaddr` metadata overwritten. -/
def set_leftright : Block → address → address → Block
  | mk ty v cs md, l, r => mk ty v cs { md with leftaddr := l, rightaddr := r }

end Block

/-- How a rendering call ends: with a block, at an address that does not
resolve in the rendered tree (the failing `at`), or with the recursion budget
of the embedding used up. -/
inductive Outcome where
  | done (block : Block)
  | out_of_range
  | out_of_fuel

/-- A token: the `VALUE` block with the given text for the node at `addr`. -/
def token (value : String) (addr : address) : Block :=
  Block.mk BlockType.VALUE value [] { addr := addr, leftaddr := [], rightaddr := [] }

/-- The bracketing step that ends `__from_expression`: when `bracketed`, a
`(` token is prepended and a `)` token appended. -/
def wrap_bracketed (bracketed : Bool) (addr : address) (container : Block) : Block :=
  if bracketed then ((container.prepend (token "(" addr)).append (token ")" addr))
  else container

/-- The recursive `__from_expression(rootexpr, addr, ctx)`; the unused `ctx`
is dropped and `fuel` bounds the recursion depth. -/
def __from_expression (fuel : Nat) (rootexpr : Expression) (addr : address) : Outcome :=
  match fuel with
  | 0 => Outcome.out_of_fuel
  | fuel + 1 =>
    match rootexpr.at addr with
    | none => Outcome.out_of_range
    | some expr =>
      match expr.type with
      | ExpType.EXPRESSION_OPERATOR_BINARY =>
        let container := Block.mk BlockType.BASIC "" [token expr.symbol addr] Metadata.empty
        match __from_expression fuel rootexpr (addr ++ [0]) with
        | Outcome.done left =>
          match __from_expression fuel rootexpr (addr ++ [1]) with
          | Outcome.done right =>
            Outcome.done (wrap_bracketed expr.bracketed addr
              ((container.prepend_all left.children).append_all right.children))
          | other => other
        | other => other
      | ExpType.EXPRESSION_OPERATOR_UNARY =>
        let container := Block.mk BlockType.BASIC "" [token expr.symbol addr] Metadata.empty
        match __from_expression fuel rootexpr (addr ++ [0]) with
        | Outcome.done inner =>
          Outcome.done (wrap_bracketed expr.bracketed addr (container.append_all inner.children))
        | other => other
      | ExpType.EXPRESSION_VALUE =>
        let container := Block.mk BlockType.BASIC "" [token expr.symbol addr] Metadata.empty
        Outcome.done (wrap_bracketed expr.bracketed addr container)

/-- The `metadata.addr` of `children[j]`; the empty address when `j` is past
the end, which the loop of `__setup_leftright_metadata` never asks for. -/
def addr_of_child (all : List Block) (j : Nat) : address :=
  match all.get? j with
  | some b => b.metadata.addr
  | none => []

mutual
/-- The pass `__setup_leftright_metadata(block)`: the block after the call. -/
def __setup_leftright_metadata : Block → Block
  | .mk ty v cs md => .mk ty v (__setup_leftright_metadata_loop cs 0 cs) md
/-- The loop body at index `i`, over the children not yet visited; `all` is
the whole child vector, whose `metadata.addr` fields the pass never writes. -/
def __setup_leftright_metadata_loop (all : List Block) (i : Nat) : List Block → List Block
  | [] => []
  | c :: rest =>
    (if c.type = BlockType.VALUE then
        c.set_leftright
          (if i > 0 then addr_of_child all (i - 1) else [])
          (if i < all.length - 1 then addr_of_child all (i + 1) else [])
      else __setup_leftright_metadata c)
      :: __setup_leftright_metadata_loop all (i + 1) rest
end

/-- `BlockDisplay::from_expression(expr, ctx)`. The recursion budget is the
height of `expr` plus one, so that every address the recursion reaches is
looked up before the budget ends. -/
def from_expression (expr : Expression) (_ctx : Context) : Outcome :=
  match __from_expression (expr.height + 1) expr [] with
  | Outcome.done block => Outcome.done (__setup_leftright_metadata block)
  | other => other

/-- The texts of the tokens of a rendering, left to right; `none` when the
rendering call does not end with a block. -/
def token_values : Outcome → Option (List String)
  | Outcome.done block => some (block.children.map Block.value)
  | _ => none

end BlockDisplay

/-! ## A concrete instance of the collaborators

The definitions of this section give one executable `Env`, used where a
statement is evaluated on concrete values. The general theorems do not depend
on it. -/

namespace Sample

/-- Modelled from the spec: the arithmetic operators of the fixed operator
table (add, subtract, multiply, divide). -/
inductive Operator where
  | ADD
  | SUBTRACT
  | MULTIPLY
  | DIVIDE
deriving DecidableEq, Repr

/-- Modelled from the spec: the display symbol of an operator. -/
def operator_symbol : Operator → String
  | .ADD => "+"
  | .SUBTRACT => "-"
  | .MULTIPLY => "*"
  | .DIVIDE => "/"

/-- Modelled from the spec: the human-readable name of an operator. -/
def operator_name : Operator → String
  | .ADD => "add"
  | .SUBTRACT => "subtract"
  | .MULTIPLY => "multiply"
  | .DIVIDE => "divide"

/-- The unbracketed binary node `l sym r`. -/
def binary (sym : String) (l r : Expression) : Expression :=
  Expression.mk ExpType.EXPRESSION_OPERATOR_BINARY sym false [l, r]

/-- A context declaring the variables and operators of the examples. -/
def ctx : Context :=
  { «variables» := ["a", "b", "x", "X"], binary_operators := ["+", "-", "*", "/", "="],
    unary_operators := ["f"], handle_numerics := true }

/-- The tree of `x + 3`. -/
def x_plus_3 : Expression :=
  binary "+" (Expression.create_symbol "x") (Expression.create_symbol "3")

/-- The tree of `x + 3 = 5`. -/
def x_plus_3_eq_5 : Expression :=
  Expression.create_equality x_plus_3 (Expression.create_symbol "5")

/-- The tree of `x + 0 = 5`. -/
def x_plus_0_eq_5 : Expression :=
  Expression.create_equality
    (binary "+" (Expression.create_symbol "x") (Expression.create_symbol "0"))
    (Expression.create_symbol "5")

/-- The tree of `x + 0 = x`. -/
def x_plus_0_eq_x : Expression :=
  Expression.create_equality
    (binary "+" (Expression.create_symbol "x") (Expression.create_symbol "0"))
    (Expression.create_symbol "x")

/-- The tree of `a + 0 = a`. -/
def a_plus_0_eq_a : Expression :=
  Expression.create_equality
    (binary "+" (Expression.create_symbol "a") (Expression.create_symbol "0"))
    (Expression.create_symbol "a")

/-- The tree of `a * 1 = a`. -/
def a_times_1_eq_a : Expression :=
  Expression.create_equality
    (binary "*" (Expression.create_symbol "a") (Expression.create_symbol "1"))
    (Expression.create_symbol "a")

/-- The statements the table-driven parser accepts, with their trees. -/
def statements : RuleMap :=
  [("x + 3 = 5", x_plus_3_eq_5), ("x + 0 = 5", x_plus_0_eq_5), ("x + 0 = x", x_plus_0_eq_x),
   ("a + 0 = a", a_plus_0_eq_a), ("a * 1 = a", a_times_1_eq_a)]

/-- The expressions the table-driven parser accepts, with their trees. -/
def expressions : RuleMap :=
  [("X", Expression.create_symbol "X"),
   ("X + 1", binary "+" (Expression.create_symbol "X") (Expression.create_symbol "1")),
   ("x + 3", x_plus_3)]

/-- A table-driven stand-in for `parse_statement`: with the infix symbol `=`
it accepts exactly the texts of `statements` and rejects every other text. -/
def parse_statement (text infix_symbol : String) (_ctx : Context) : Option Expression :=
  if infix_symbol == "=" then RuleMap.find statements text else none

/-- A table-driven stand-in for `parse_expression`: it accepts exactly the
texts of `expressions`. -/
def parse_expression (text : String) (_ctx : Context) : Option Expression :=
  RuleMap.find expressions text

mutual
/-- A plain infix printer standing in for `Expression::to_string`. -/
def to_string : Expression → String
  | .mk _ s b cs =>
    let inner :=
      match to_string_children cs with
      | [] => s
      | [a] => s ++ " " ++ a
      | a :: rest => a ++ " " ++ s ++ " " ++ " ".intercalate rest
    if b then "(" ++ inner ++ ")" else inner
/-- The printed children. -/
def to_string_children : List Expression → List String
  | [] => []
  | c :: cs => to_string c :: to_string_children cs
end

mutual
/-- Every tree obtained from `e` by rewriting one occurrence of the literal
tree `pattern` into `template`, in pre-order of the rewritten address. -/
def rewrite_sites (pattern template : Expression) : Expression → List Expression
  | .mk t s b cs =>
    (if Expression.beq (.mk t s b cs) pattern then [template] else [])
      ++ (rewrite_sites_children pattern template cs).map (Expression.mk t s b)
/-- Every child vector obtained by rewriting one occurrence in one child. -/
def rewrite_sites_children (pattern template : Expression) :
    List Expression → List (List Expression)
  | [] => []
  | c :: cs =>
    (rewrite_sites pattern template c).map (fun c1 => c1 :: cs)
      ++ (rewrite_sites_children pattern template cs).map (fun cs1 => c :: cs1)
end

/-- A stand-in for `Expression::apply_rule_equal` restricted to rules read
literally (no pattern variables): the rule must be an `=` node with two
children, and every occurrence of its left side is a rewrite site. -/
def apply_rule_equal (self rule : Expression) (_ctx : Context) : Option (List Expression) :=
  match rule with
  | .mk _ "=" _ [pattern, template] => some (rewrite_sites pattern template self)
  | _ => none

/-- The tree `e` with the subtree at `addr` replaced by `r`; `none` when the
address does not resolve. -/
def replace_at : Expression → address → Expression → Option Expression
  | _, [], r => some r
  | .mk t s b cs, i :: rest, r =>
    if i < 0 then none
    else
      match cs.get? i.toNat with
      | none => none
      | some c =>
        match replace_at c rest r with
        | none => none
        | some c1 => some (.mk t s b (cs.set i.toNat c1))

/-- A stand-in for `Expression::is_in_same_operator_chain` that recognises
only the shortest chains: two distinct children of one binary node. Both
addresses must resolve. -/
def is_in_same_operator_chain (self : Expression) (addr1 addr2 : address) : Option Bool :=
  match self.at addr1, self.at addr2 with
  | some _, some _ =>
    match self.at addr1.dropLast with
    | some parent =>
      some (decide (addr1 ≠ []) && decide (addr2 ≠ []) && decide (addr1 ≠ addr2)
        && decide (addr1.dropLast = addr2.dropLast)
        && decide (parent.type = ExpType.EXPRESSION_OPERATOR_BINARY))
    | none => none
  | _, _ => none

/-- A stand-in for `Expression::swap_two_element`: the subtrees at the two
addresses are exchanged. -/
def swap_two_element (self : Expression) (addr1 addr2 : address) : Option Expression :=
  match self.at addr1, self.at addr2 with
  | some e1, some e2 =>
    match replace_at self addr1 e2 with
    | some swapped => replace_at swapped addr2 e1
    | none => none
  | _, _ => none

/-- The value of a string of decimal digits, most significant first. -/
def digits_value : List Char → Nat → Option Nat
  | [], acc => some acc
  | c :: cs, acc =>
    if c.isDigit then digits_value cs (acc * 10 + (c.toNat - 48)) else none

/-- The natural number written by `text`, when `text` is a non-empty string
of decimal digits. -/
def parse_number (text : String) : Option Nat :=
  match text.data with
  | [] => none
  | cs => digits_value cs 0

/-- A stand-in for `Arithmetic::create_calculation` on natural numbers: the
equality `left op right = value`, or `none` when an operand is not a number or
the result is not a natural number. -/
def create_calculation (left right : String) (op : Operator) : Option Expression :=
  match parse_number left, parse_number right with
  | some l, some r =>
    let result : Option Nat :=
      match op with
      | .ADD => some (l + r)
      | .SUBTRACT => if r ≤ l then some (l - r) else none
      | .MULTIPLY => some (l * r)
      | .DIVIDE => if r ≠ 0 ∧ l % r = 0 then some (l / r) else none
    match result with
    | some v =>
      some (Expression.create_equality
        (binary (operator_symbol op) (Expression.create_symbol left)
          (Expression.create_symbol right))
        (Expression.create_symbol (toString v)))
    | none => none
  | _, _ => none

/-- The concrete collaborators. The whole-tree rewrites between dual operator
forms are instantiated by the identity. -/
def env : Env Operator :=
  { parse_statement := parse_statement
    parse_expression := parse_expression
    to_string := to_string
    apply_rule_equal := apply_rule_equal
    is_in_same_operator_chain := is_in_same_operator_chain
    swap_two_element := swap_two_element
    operator_symbol := operator_symbol
    operator_name := operator_name
    create_calculation := create_calculation
    turn_subtraction_to_addition := fun e => e
    turn_addition_to_subtraction := fun e => e
    turn_division_to_multiplication := fun e => e
    turn_multiplication_to_division := fun e => e
    remove_assoc_parentheses := fun e => e }

/-- A task created with the sample context. -/
def fresh : Task := Task.create ctx

/-- A task whose current statement is `x + 3 = 5`. -/
def task_x_plus_3 : Task := fresh.set_current_expr x_plus_3_eq_5 ""

end Sample

/-! ## Sequences of Task operations -/

section all_ops
variable {Operator : Type}

/-- One call of a member of `Task` that changes the task: a `bool`-returning
operation, one of the two rule insertions, the seeding of `current` from the
target, or one of the five arithmetic rewrites of the whole statement. -/
inductive Op (Operator : Type) where
  | call (c : Call Operator)
  | add_rule_expr (name : String) (expr : Expression)
  | add_rule_eq (name exprstr : String)
  | init_current_with_target_lhs
  | apply_arithmetic_turn_subtraction_to_addition (custom_name : String)
  | apply_arithmetic_turn_addition_to_subtraction (custom_name : String)
  | apply_arithmetic_turn_division_to_multiplication (custom_name : String)
  | apply_arithmetic_turn_multiplication_to_division (custom_name : String)
  | apply_arithmetic_remove_assoc_parentheses (custom_name : String)

/-- The task after one operation, or `none` when the operation does not
return normally. -/
def Op.run (env : Env Operator) (t : Task) : Op Operator → Option Task
  | .call c => (Call.run env t c).map Prod.snd
  | .add_rule_expr name expr => some (t.add_rule_expr name expr)
  | .add_rule_eq name exprstr => some (Task.add_rule_eq env t name exprstr)
  | .init_current_with_target_lhs => t.init_current_with_target_lhs
  | .apply_arithmetic_turn_subtraction_to_addition custom_name =>
    (Task.apply_arithmetic_turn_subtraction_to_addition env t custom_name).map Prod.snd
  | .apply_arithmetic_turn_addition_to_subtraction custom_name =>
    (Task.apply_arithmetic_turn_addition_to_subtraction env t custom_name).map Prod.snd
  | .apply_arithmetic_turn_division_to_multiplication custom_name =>
    (Task.apply_arithmetic_turn_division_to_multiplication env t custom_name).map Prod.snd
  | .apply_arithmetic_turn_multiplication_to_division custom_name =>
    (Task.apply_arithmetic_turn_multiplication_to_division env t custom_name).map Prod.snd
  | .apply_arithmetic_remove_assoc_parentheses custom_name =>
    (Task.apply_arithmetic_remove_assoc_parentheses env t custom_name).map Prod.snd

/-- The task after a sequence of operations performed in order, or `none`
when one of them does not return normally. A task is reachable when it is
`run_ops env (Task.create ctx) ops` for some `ops`. -/
def run_ops (env : Env Operator) : Task → List (Op Operator) → Option Task
  | t, [] => some t
  | t, op :: rest =>
    match Op.run env t op with
    | none => none
    | some t1 => run_ops env t1 rest

/-- Whether the operation is `init_current_with_target_lhs`. -/
def Op.is_init : Op Operator → Bool
  | .init_current_with_target_lhs => true
  | _ => false

end all_ops

/-! ## Shapes of expressions and the token sequence of a rendering -/

mutual
/-- The invariant of the data model: in every node the child count matches
the tag (two for a binary operator, one for a unary operator, none for a
value). -/
def Expression.well_formed : Expression → Bool
  | .mk t _ _ cs =>
    (match t with
      | ExpType.EXPRESSION_OPERATOR_BINARY => cs.length == 2
      | ExpType.EXPRESSION_OPERATOR_UNARY => cs.length == 1
      | ExpType.EXPRESSION_VALUE => cs.length == 0)
    && Expression.well_formed_children cs
/-- Every tree of the list is well formed. -/
def Expression.well_formed_children : List Expression → Bool
  | [] => true
  | c :: cs => Expression.well_formed c && Expression.well_formed_children cs
end

mutual
/-- Number of nodes of a tree. -/
def Expression.size : Expression → Nat
  | .mk _ _ _ cs => Expression.size_children cs + 1
/-- Number of nodes of a list of trees. -/
def Expression.size_children : List Expression → Nat
  | [] => 0
  | c :: cs => Expression.size c + Expression.size_children cs
end

mutual
/-- Number of nodes of a tree whose bracketed flag is set. -/
def Expression.bracketed_count : Expression → Nat
  | .mk _ _ b cs => (if b then 1 else 0) + Expression.bracketed_count_children cs
/-- Number of bracketed nodes in a list of trees. -/
def Expression.bracketed_count_children : List Expression → Nat
  | [] => 0
  | c :: cs => Expression.bracketed_count c + Expression.bracketed_count_children cs
end

mutual
/-- Whether the tree contains a binary node with the division symbol `/`. -/
def Expression.has_division : Expression → Bool
  | .mk t s _ cs =>
    (decide (t = ExpType.EXPRESSION_OPERATOR_BINARY) && s == "/")
      || Expression.has_division_children cs
/-- Whether one tree of the list contains a division node. -/
def Expression.has_division_children : List Expression → Bool
  | [] => false
  | c :: cs => Expression.has_division c || Expression.has_division_children cs
end

mutual
/-- The token sequence of a rendering as the interface description words it:
a value node gives its symbol; a unary node its symbol, then the tokens of
the child; a binary node the tokens of the left child, its symbol, the tokens
of the right child; the sequence is put between `(` and `)` exactly when the
node is bracketed. A child that is missing contributes no token. -/
def tokens : Expression → List String
  | .mk t s b cs =>
    let parts := tokens_children cs
    let inner :=
      match t with
      | ExpType.EXPRESSION_OPERATOR_BINARY => parts.getD 0 [] ++ [s] ++ parts.getD 1 []
      | ExpType.EXPRESSION_OPERATOR_UNARY => [s] ++ parts.getD 0 []
      | ExpType.EXPRESSION_VALUE => [s]
    if b then ["("] ++ inner ++ [")"] else inner
/-- The token sequences of the children, in order. -/
def tokens_children : List Expression → List (List String)
  | [] => []
  | c :: cs => tokens c :: tokens_children cs
end

mutual
/-- The token sequence of the subtree `e` found at address `addr`, each token
text paired with the address of the node it belongs to. -/
def labelled_tokens : Expression → address → List (String × address)
  | .mk t s b cs, addr =>
    let parts := labelled_tokens_children cs addr 0
    let inner :=
      match t with
      | ExpType.EXPRESSION_OPERATOR_BINARY =>
        parts.getD 0 [] ++ [(s, addr)] ++ parts.getD 1 []
      | ExpType.EXPRESSION_OPERATOR_UNARY => [(s, addr)] ++ parts.getD 0 []
      | ExpType.EXPRESSION_VALUE => [(s, addr)]
    if b then [("(", addr)] ++ inner ++ [(")", addr)] else inner
/-- The labelled token sequences of the children of the node at `addr`; the
first child of the list has index `i`. -/
def labelled_tokens_children : List Expression → address → Int →
    List (List (String × address))
  | [], _, _ => []
  | c :: cs, addr, i =>
    labelled_tokens c (addr ++ [i]) :: labelled_tokens_children cs addr (i + 1)
end

mutual
/-- Whether the block or one of its descendants has type `FRAC`. -/
def BlockDisplay.Block.contains_frac : BlockDisplay.Block → Bool
  | .mk ty _ cs _ =>
    decide (ty = BlockDisplay.BlockType.FRAC) || BlockDisplay.Block.contains_frac_children cs
/-- Whether one block of the list contains a `FRAC` block. -/
def BlockDisplay.Block.contains_frac_children : List BlockDisplay.Block → Bool
  | [] => false
  | c :: cs =>
    BlockDisplay.Block.contains_frac c || BlockDisplay.Block.contains_frac_children cs
end

/-- The token block for a labelled token. -/
def BlockDisplay.token_of (p : String × address) : BlockDisplay.Block :=
  BlockDisplay.token p.1 p.2

/-! ## Rule application, modelled from the interface description

The bodies of the matching functions are in `expression.cpp`. The definitions
of this section follow the description of the rule application engine; they
are used for one concrete run and for no general theorem. -/

mutual
/-- Modelled from the spec: `Expression::get_all_address` (body in
`expression.cpp`), the address of every node in pre-order: the root first,
then the children from left to right, recursively. -/
def Expression.get_all_address : Expression → List address
  | .mk _ _ _ cs => [] :: Expression.get_all_address_children cs 0
/-- The addresses below a node whose remaining children start at index `i`. -/
def Expression.get_all_address_children : List Expression → Int → List address
  | [], _ => []
  | c :: cs, i =>
    (Expression.get_all_address c).map (fun a => i :: a)
      ++ Expression.get_all_address_children cs (i + 1)
end

/-- Whether a pattern node is a declared variable: a value node whose symbol
is among the variables of the context. -/
def Expression.is_pattern_variable (pattern : Expression) (ctx : Context) : Bool :=
  decide (pattern.type = ExpType.EXPRESSION_VALUE) && ctx.variables.contains pattern.symbol

mutual
/-- Modelled from the spec: `Expression::can_pattern_match` (body in
`expression.cpp`): a pattern node that is a declared variable matches
anything; any other pattern node matches only a node of the same type and
symbol whose children match the pattern's children one by one. -/
def Expression.can_pattern_match (self pattern : Expression) (ctx : Context) : Bool :=
  match pattern with
  | .mk pt ps pb pcs =>
    if Expression.is_pattern_variable (.mk pt ps pb pcs) ctx then true
    else decide (self.type = pt) && self.symbol == ps
      && Expression.can_pattern_match_children self.children pcs ctx
/-- The children match the patterns one by one, and there are as many. -/
def Expression.can_pattern_match_children (selves patterns : List Expression)
    (ctx : Context) : Bool :=
  match patterns, selves with
  | [], [] => true
  | p :: ps, e :: es =>
    Expression.can_pattern_match e p ctx && Expression.can_pattern_match_children es ps ctx
  | _, _ => false
end

mutual
/-- The unification walk of `try_match_pattern`, extending `bindings`: a
pattern variable met for the first time is bound to the subtree; met again,
the subtree must be structurally equal to the first binding. -/
def Expression.match_pattern_into (self pattern : Expression) (ctx : Context)
    (bindings : RuleMap) : Option RuleMap :=
  match pattern with
  | .mk pt ps pb pcs =>
    if Expression.is_pattern_variable (.mk pt ps pb pcs) ctx then
      match RuleMap.find bindings ps with
      | none => some (bindings ++ [(ps, self)])
      | some bound => if Expression.beq bound self then some bindings else none
    else if decide (self.type = pt) && self.symbol == ps then
      Expression.match_children_into self.children pcs ctx bindings
    else none
/-- The unification walk over the children, left to right. -/
def Expression.match_children_into (selves patterns : List Expression) (ctx : Context)
    (bindings : RuleMap) : Option RuleMap :=
  match patterns, selves with
  | [], [] => some bindings
  | p :: ps, e :: es =>
    match Expression.match_pattern_into e p ctx bindings with
    | none => none
    | some extended => Expression.match_children_into es ps ctx extended
  | _, _ => none
end

/-- Modelled from the spec: `Expression::try_match_pattern` (body in
`expression.cpp`), the bindings of the pattern variables, or `none` when the
match is inconsistent. The model takes the context to tell the variables. -/
def Expression.try_match_pattern (self pattern : Expression) (ctx : Context) :
    Option RuleMap :=
  Expression.match_pattern_into self pattern ctx []

mutual
/-- Modelled from the spec: `Expression::apply_variable_map` (body in
`expression.cpp`): every leaf whose symbol is bound is replaced by a copy of
its binding; the operator structure is kept. -/
def Expression.apply_variable_map (self : Expression) (variable_map : RuleMap) :
    Expression :=
  match self with
  | .mk t s b cs =>
    match (if decide (t = ExpType.EXPRESSION_VALUE) then RuleMap.find variable_map s
      else none) with
    | some bound => bound.copy
    | none => .mk t s b (Expression.apply_variable_map_children cs variable_map)
/-- The substitution on a child vector. -/
def Expression.apply_variable_map_children (cs : List Expression)
    (variable_map : RuleMap) : List Expression :=
  match cs with
  | [] => []
  | c :: rest =>
    Expression.apply_variable_map c variable_map
      :: Expression.apply_variable_map_children rest variable_map
end

/-- Modelled from the spec: `Expression::apply_rule_equal` (body in
`expression.cpp`). The rule must have `=` as its top symbol, its left child is
the pattern and its right child the template. Every address of `self`, in the
pre-order of `get_all_address`, whose subtree passes `can_pattern_match` and
for which `try_match_pattern` yields bindings gives one candidate: `self` with
that subtree replaced by the instantiated template. -/
def Expression.apply_rule_equal (self rule : Expression) (ctx : Context) :
    Option (List Expression) :=
  if rule.symbol != "=" then none
  else
    match rule.children with
    | [pattern, template] =>
      some ((Expression.get_all_address self).filterMap (fun addr =>
        match self.at addr with
        | none => none
        | some sub =>
          if sub.can_pattern_match pattern ctx then
            match sub.try_match_pattern pattern ctx with
            | none => none
            | some bindings =>
              Sample.replace_at self addr (template.apply_variable_map bindings)
          else none))
    | _ => none

namespace Sample

/-- A run through every kind of operation: rules, target, seeding of
`current`, a rule application, a swap, an arithmetic step and a rewrite. -/
def ops : List (Op Operator) :=
  [Op.add_rule_eq "zero" "a + 0 = a",
   Op.call (Call.set_target_eq "x + 0 = 5"),
   Op.init_current_with_target_lhs,
   Op.call (Call.apply_rule_expr x_plus_0_eq_x "remove zero"),
   Op.call (Call.try_swap_two_element [0] [1] ""),
   Op.call (Call.apply_arithmetic_to_both_side Operator.ADD "2" ""),
   Op.apply_arithmetic_remove_assoc_parentheses ""]

end Sample

/-! ## Assumption on the parser used for the shape of `target` -/

section assumptions
variable {Operator : Type}

end assumptions

/-- The tree of `(x + 3) - f y`, with the sum bracketed. -/
def Sample.bracketed_difference : Expression :=
  Sample.binary "-"
    (Expression.mk ExpType.EXPRESSION_OPERATOR_BINARY "+" true
      [Expression.create_symbol "x", Expression.create_symbol "3"])
    (Expression.mk ExpType.EXPRESSION_OPERATOR_UNARY "f" false [Expression.create_symbol "y"])

/-- The tree of `1 / 2`. -/
def Sample.one_over_two : Expression :=
  Sample.binary "/" (Expression.create_symbol "1") (Expression.create_symbol "2")

/-! ## Auxiliary notions used in the statements -/

/-- The two ways an operation on the current statement ends. -/
def Ends (t : Task) (r : Bool × Task) : Prop :=
  (r.1 = false ∧ ∃ msg, r.2 = t.push_error msg) ∨
  (r.1 = true ∧ ∃ e label, r.2 = t.set_current_expr e label)

section origins
variable {Operator : Type}

end origins

/-- The block that `__from_expression` builds for a well-formed subtree: a
`BASIC` container holding the token blocks of the labelled token sequence. -/
def BlockDisplay.render_block (e : Expression) (addr : address) : BlockDisplay.Block :=
  BlockDisplay.Block.mk BlockDisplay.BlockType.BASIC ""
    ((labelled_tokens e addr).map BlockDisplay.token_of) BlockDisplay.Metadata.empty

/-- A sample run of `bool`-returning calls: set the current statement to
`x + 0 = 5`, try an undefined rule, rewrite with `x + 0 = x`, swap two
elements that are not in one chain, then add `2` to both sides. -/
def Sample.calls : List (Call Sample.Operator) :=
  [Call.set_current_eq "x + 0 = 5",
   Call.apply_rule "anything" "",
   Call.apply_rule_expr Sample.x_plus_0_eq_x "remove zero",
   Call.try_swap_two_element [0] [0] "",
   Call.apply_arithmetic_to_both_side Sample.Operator.ADD "2" ""]

/-- The task after the sample run. -/
def Sample.after_calls : Task :=
  { context := Sample.ctx
    rules := []
    history :=
      [(Sample.x_plus_0_eq_5, ""),
       (Expression.create_equality (Expression.create_symbol "x")
          (Expression.create_symbol "5"), "remove zero"),
       (Expression.create_equality
          (Sample.binary "+" (Expression.create_symbol "x") (Expression.create_symbol "2"))
          (Sample.binary "+" (Expression.create_symbol "5") (Expression.create_symbol "2")),
        "add both side by 2")]
    current := some (Expression.create_equality
      (Sample.binary "+" (Expression.create_symbol "x") (Expression.create_symbol "2"))
      (Sample.binary "+" (Expression.create_symbol "5") (Expression.create_symbol "2")))
    target := none
    error_messages :=
      ["rule anything is not defined",
       "trying to swap, but the two element are not in the same operator chain"]
    print_rhs_only := false }

/-! ## Basic facts about the data model -/

mutual
/-- A structural copy is equal to the original. -/
theorem Expression.copy_eq : ∀ e : Expression, e.copy = e
  | .mk t s b cs => by rw [Expression.copy, Expression.copy_children_eq cs]
/-- Copying the children gives the same children. -/
theorem Expression.copy_children_eq : ∀ cs : List Expression, Expression.copy_children cs = cs
  | [] => by rw [Expression.copy_children]
  | c :: cs => by
    rw [Expression.copy_children, Expression.copy_eq c, Expression.copy_children_eq cs]
end

mutual
/-- The structural equality test holds exactly for equal trees. -/
theorem Expression.beq_iff : ∀ a b : Expression, Expression.beq a b = true ↔ a = b
  | .mk t1 s1 b1 c1, .mk t2 s2 b2 c2 => by
    simp only [Expression.beq, Bool.and_eq_true, decide_eq_true_eq,
      Expression.beq_children_iff c1 c2, Expression.mk.injEq]
    tauto
/-- The pointwise test holds exactly for equal child vectors. -/
theorem Expression.beq_children_iff :
    ∀ as bs : List Expression, Expression.beq_children as bs = true ↔ as = bs
  | [], [] => by simp [Expression.beq_children]
  | [], _ :: _ => by simp [Expression.beq_children]
  | _ :: _, [] => by simp [Expression.beq_children]
  | a :: as, b :: bs => by
    simp only [Expression.beq_children, Bool.and_eq_true, Expression.beq_iff a b,
      Expression.beq_children_iff as bs, List.cons.injEq]
end

instance : DecidableEq Expression := fun a b =>
  decidable_of_iff (Expression.beq a b = true) (Expression.beq_iff a b)

/-- Looking up a bound key through `operator[]` leaves the map as it is. -/
theorem RuleMap.index_of_contain (m : RuleMap) (key : String)
    (h : map_contain key m = true) : (RuleMap.index m key).2 = m := by
  unfold map_contain at h
  unfold RuleMap.index
  cases hf : RuleMap.find m key with
  | none => simp [hf] at h
  | some v => rfl

/-- Lookup in a map extended at the end. -/
theorem RuleMap.find_append (m : RuleMap) (key k : String) (v : Expression) :
    RuleMap.find (m ++ [(k, v)]) key =
      match RuleMap.find m key with
      | some old => some old
      | none => if k == key then some v else none := by
  induction m with
  | nil => simp [RuleMap.find]
  | cons kv rest ih =>
    obtain ⟨k0, v0⟩ := kv
    simp only [List.cons_append, RuleMap.find]
    by_cases hk : (k0 == key) = true
    · simp [hk]
    · simp only [hk, Bool.false_eq_true, if_false]
      exact ih

/-! ## How each operation ends

Every `bool`-returning operation other than the two setters ends in one of two
ways: it returns `false` after one `push_back` on `error_messages`, or it
returns `true` after one call of `set_current_expr`. -/

section lemmas
variable {Operator : Type}

theorem Task.apply_function_to_both_side_expr_ends (env : Env Operator) (t : Task)
    (fexpr : Expression) (varname custom_name : String) (r : Bool × Task)
    (h : Task.apply_function_to_both_side_expr env t fexpr varname custom_name = some r) :
    Ends t r := by
  unfold Task.apply_function_to_both_side_expr at h
  repeat' split at h
  all_goals
    first
    | (cases h; exact Or.inl ⟨rfl, _, rfl⟩)
    | (cases h; exact Or.inr ⟨rfl, _, _, rfl⟩)
    | cases h

theorem Task.apply_function_to_both_side_ends (env : Env Operator) (t : Task)
    (fstr varname custom_name : String) (r : Bool × Task)
    (h : Task.apply_function_to_both_side env t fstr varname custom_name = some r) :
    Ends t r := by
  unfold Task.apply_function_to_both_side at h
  split at h
  · cases h; exact Or.inl ⟨rfl, _, rfl⟩
  · exact Task.apply_function_to_both_side_expr_ends env t _ _ _ r h

theorem Task.apply_rule_expr_ends (env : Env Operator) (t : Task) (expr : Expression)
    (name : String) (r : Bool × Task) (h : Task.apply_rule_expr env t expr name = some r) :
    Ends t r := by
  unfold Task.apply_rule_expr at h
  repeat' split at h
  all_goals
    first
    | (cases h; exact Or.inl ⟨rfl, _, rfl⟩)
    | (cases h; exact Or.inr ⟨rfl, _, _, rfl⟩)
    | cases h

theorem Task.apply_rule_ends (env : Env Operator) (t : Task) (rulename custom_name : String)
    (r : Bool × Task) (h : Task.apply_rule env t rulename custom_name = some r) :
    Ends t r := by
  unfold Task.apply_rule at h
  split at h
  · cases h; exact Or.inl ⟨rfl, _, rfl⟩
  · rename_i hc
    have hc1 : map_contain rulename t.rules = true := by simpa using hc
    dsimp only at h
    rw [RuleMap.index_of_contain t.rules rulename hc1] at h
    exact Task.apply_rule_expr_ends env t _ _ r h

theorem Task.try_swap_two_element_ends (env : Env Operator) (t : Task) (addr1 addr2 : address)
    (custom_name : String) (r : Bool × Task)
    (h : Task.try_swap_two_element env t addr1 addr2 custom_name = some r) : Ends t r := by
  unfold Task.try_swap_two_element at h
  cases hcur : t.current with
  | none => rw [hcur] at h; cases h; exact Or.inl ⟨rfl, _, rfl⟩
  | some cur =>
    rw [hcur] at h
    dsimp only at h
    cases hch : env.is_in_same_operator_chain cur.copy addr1 addr2 with
    | none => rw [hch] at h; cases h
    | some b =>
      rw [hch] at h
      cases b with
      | false => cases h; exact Or.inl ⟨rfl, _, rfl⟩
      | true =>
        dsimp only at h
        cases hsw : env.swap_two_element cur.copy addr1 addr2 with
        | none => rw [hsw] at h; cases h
        | some e => rw [hsw] at h; cases h; exact Or.inr ⟨rfl, _, _, rfl⟩

theorem Task.apply_arithmetic_to_both_side_ends (env : Env Operator) (t : Task) (op : Operator)
    (value custom_name : String) (r : Bool × Task)
    (h : Task.apply_arithmetic_to_both_side env t op value custom_name = some r) :
    Ends t r :=
  Task.apply_function_to_both_side_expr_ends env t _ _ _ r h

theorem Task.apply_arithmetic_calculation_ends (env : Env Operator) (t : Task)
    (left right : String) (op : Operator) (custom_name : String) (r : Bool × Task)
    (h : Task.apply_arithmetic_calculation env t left right op custom_name = some r) :
    Ends t r := by
  unfold Task.apply_arithmetic_calculation at h
  split at h
  · cases h; exact Or.inl ⟨rfl, _, rfl⟩
  · exact Task.apply_rule_expr_ends env t _ _ r h

/-- Every call other than the two setters ends in one of the two ways. -/
theorem Call.run_ends (env : Env Operator) (t : Task) (c : Call Operator) (r : Bool × Task)
    (h : Call.run env t c = some r) :
    Ends t r ∨
    (∃ s, c = Call.set_current_eq s ∧ r = (false, t)) ∨
    (∃ s, c = Call.set_current_eq s ∧ ∃ e, r = (true, t.set_current_expr e "")) ∨
    (∃ s, c = Call.set_target_eq s ∧ r = (false, t)) ∨
    (∃ s, c = Call.set_target_eq s ∧ ∃ e, r = (true, { t with target := some e })) := by
  cases c with
  | set_current_eq s =>
    simp only [Call.run, Task.set_current_eq, Option.some.injEq] at h
    split at h
    · exact Or.inr (Or.inl ⟨s, rfl, h.symm⟩)
    · exact Or.inr (Or.inr (Or.inl ⟨s, rfl, _, h.symm⟩))
  | set_target_eq s =>
    simp only [Call.run, Task.set_target_eq, Option.some.injEq] at h
    split at h
    · exact Or.inr (Or.inr (Or.inr (Or.inl ⟨s, rfl, h.symm⟩)))
    · exact Or.inr (Or.inr (Or.inr (Or.inr ⟨s, rfl, _, h.symm⟩)))
  | apply_function_to_both_side_expr f v n =>
    exact Or.inl (Task.apply_function_to_both_side_expr_ends env t f v n r h)
  | apply_function_to_both_side f v n =>
    exact Or.inl (Task.apply_function_to_both_side_ends env t f v n r h)
  | apply_rule_expr e n => exact Or.inl (Task.apply_rule_expr_ends env t e n r h)
  | apply_rule rn n => exact Or.inl (Task.apply_rule_ends env t rn n r h)
  | try_swap_two_element a1 a2 n =>
    exact Or.inl (Task.try_swap_two_element_ends env t a1 a2 n r h)
  | apply_arithmetic_to_both_side op v n =>
    exact Or.inl (Task.apply_arithmetic_to_both_side_ends env t op v n r h)
  | apply_arithmetic_calculation l rr op n =>
    exact Or.inl (Task.apply_arithmetic_calculation_ends env t l rr op n r h)

end lemmas

/-! ## Claims about failure and about rule application -/

section claims
variable {Operator : Type}

/-- C1: no partial mutation on failure. For every task, every call of a
`bool`-returning operation and every argument, if the call returns `false`
then `current`, `target`, `rules` and `history` are the ones before the call,
and the old `error_messages` is an initial segment of the new one. -/
theorem failed_call_leaves_state (env : Env Operator) (t t1 : Task) (c : Call Operator)
    (h : Call.run env t c = some (false, t1)) :
    t1.current = t.current ∧ t1.target = t.target ∧ t1.rules = t.rules ∧
      t1.history = t.history ∧ t.error_messages <+: t1.error_messages := by
  rcases Call.run_ends env t c (false, t1) h with he | ⟨_, _, hr⟩ | ⟨_, _, _, hr⟩ |
      ⟨_, _, hr⟩ | ⟨_, _, _, hr⟩
  · rcases he with ⟨_, msg, hm⟩ | ⟨hb, _⟩
    · simp only at hm
      subst hm
      exact ⟨rfl, rfl, rfl, rfl, List.prefix_append _ _⟩
    · simp at hb
  · cases hr
    exact ⟨rfl, rfl, rfl, rfl, List.prefix_refl _⟩
  · cases hr
  · cases hr
    exact ⟨rfl, rfl, rfl, rfl, List.prefix_refl _⟩
  · cases hr

/-- C1 at a concrete call: swapping two elements of `x + 3 = 5` that are not
in one chain fails and leaves the state as it was. -/
theorem failed_call_leaves_state_witness :
    Call.run Sample.env Sample.task_x_plus_3 (Call.try_swap_two_element [0, 0] [1] "") =
        some (false, Sample.task_x_plus_3.push_error
          "trying to swap, but the two element are not in the same operator chain") ∧
      ((Sample.task_x_plus_3.push_error
          "trying to swap, but the two element are not in the same operator chain").current =
          Sample.task_x_plus_3.current ∧
        (Sample.task_x_plus_3.push_error
          "trying to swap, but the two element are not in the same operator chain").target =
          Sample.task_x_plus_3.target ∧
        (Sample.task_x_plus_3.push_error
          "trying to swap, but the two element are not in the same operator chain").rules =
          Sample.task_x_plus_3.rules ∧
        (Sample.task_x_plus_3.push_error
          "trying to swap, but the two element are not in the same operator chain").history =
          Sample.task_x_plus_3.history ∧
        Sample.task_x_plus_3.error_messages <+:
          (Sample.task_x_plus_3.push_error
            "trying to swap, but the two element are not in the same operator chain").error_messages) :=
  ⟨by rfl, failed_call_leaves_state Sample.env Sample.task_x_plus_3 _
    (Call.try_swap_two_element [0, 0] [1] "") (by rfl)⟩

/-- C2 as the code has it: on a task with `current` unset, no rules and no
history, `apply_rule(r, "")` returns `false`, appends the message
`rule r is not defined` (the lookup of the rule name comes before the test of
`current`), and leaves `current` unset and `rules` and `history` empty. -/
theorem apply_rule_on_fresh_task (env : Env Operator) (t : Task) (r : String)
    (hcur : t.current = none) (hrules : t.rules = []) (hhist : t.history = []) :
    ∃ t1, Task.apply_rule env t r "" = some (false, t1) ∧
      t1.error_messages = t.error_messages ++ ["rule " ++ r ++ " is not defined"] ∧
      t1.rules = [] ∧ t1.history = [] ∧ t1.current = none := by
  refine ⟨t.push_error ("rule " ++ r ++ " is not defined"), ?_, rfl, hrules, hhist, hcur⟩
  unfold Task.apply_rule
  simp [hrules, map_contain, RuleMap.find]

/-- C2 as the code has it, on the sample fresh task with the rule name
`anything`. -/
theorem apply_rule_on_fresh_task_witness :
    Sample.fresh.current = none ∧ Sample.fresh.rules = [] ∧ Sample.fresh.history = [] ∧
      ∃ t1, Task.apply_rule Sample.env Sample.fresh "anything" "" = some (false, t1) ∧
        t1.error_messages =
          Sample.fresh.error_messages ++ ["rule " ++ "anything" ++ " is not defined"] ∧
        t1.rules = [] ∧ t1.history = [] ∧ t1.current = none :=
  ⟨rfl, rfl, rfl, apply_rule_on_fresh_task Sample.env Sample.fresh "anything" rfl rfl rfl⟩

/-- C2 fails as stated: on the fresh sample task `apply_rule("anything", "")`
appends exactly one message, `rule anything is not defined`, and the message
`current statement is not set` is not among the error messages. -/
theorem apply_rule_on_fresh_task_message :
    ∃ t1, Task.apply_rule Sample.env Sample.fresh "anything" "" = some (false, t1) ∧
      t1.error_messages = ["rule anything is not defined"] ∧
      "current statement is not set" ∉ t1.error_messages :=
  ⟨Sample.fresh.push_error "rule anything is not defined", by rfl, by rfl, by decide⟩

/-- C3: on a task whose current statement `cur` is an equality, when
`apply_rule_equal(rule, context)` on `cur` returns the sequence `results`,
`apply_rule_expr(rule, name)` returns `true` exactly when `results` is not
empty; then the new current statement is the first element and the entry
(first element, `name`) is appended to the history; when `results` is empty it
returns `false` and appends the message `failed to apply rule: ` followed by
`name`, leaving `current` and `history` as they were. -/
theorem apply_rule_expr_first_candidate (env : Env Operator) (t : Task)
    (cur rule : Expression) (name : String) (results : List Expression)
    (hcur : t.current = some cur) (heq : cur.symbol = "=")
    (hres : env.apply_rule_equal cur rule t.context = some results) :
    ∃ b t1, Task.apply_rule_expr env t rule name = some (b, t1) ∧
      (b = true ↔ results ≠ []) ∧
      (∀ first rest, results = first :: rest →
        t1.current = some first ∧ t1.history = t.history ++ [(first, name)] ∧
          t1.error_messages = t.error_messages) ∧
      (results = [] →
        b = false ∧ t1.error_messages = t.error_messages ++ ["failed to apply rule: " ++ name] ∧
          t1.current = t.current ∧ t1.history = t.history) := by
  unfold Task.apply_rule_expr
  rw [hcur]
  simp only [heq, bne_self_eq_false, Bool.false_eq_true, if_false, hres]
  cases results with
  | nil =>
    refine ⟨false, t.push_error ("failed to apply rule: " ++ name), rfl, by simp, ?_, ?_⟩
    · intro first rest h; cases h
    · intro _; exact ⟨rfl, rfl, hcur, rfl⟩
  | cons first rest =>
    refine ⟨true, t.set_current_expr first name, rfl, by simp, ?_, ?_⟩
    · intro f r h
      cases h
      exact ⟨rfl, rfl, rfl⟩
    · intro h; cases h

/-- C3 on the sample task with current statement `x + 0 = 5` and the rule
`x + 0 = x`, whose application returns the single candidate `x = 5`. -/
theorem apply_rule_expr_first_candidate_witness :
    (Sample.fresh.set_current_expr Sample.x_plus_0_eq_5 "").current =
        some Sample.x_plus_0_eq_5 ∧
      Sample.x_plus_0_eq_5.symbol = "=" ∧
      Sample.env.apply_rule_equal Sample.x_plus_0_eq_5 Sample.x_plus_0_eq_x
          (Sample.fresh.set_current_expr Sample.x_plus_0_eq_5 "").context =
        some [Expression.create_equality (Expression.create_symbol "x")
          (Expression.create_symbol "5")] ∧
      ∃ b t1, Task.apply_rule_expr Sample.env
          (Sample.fresh.set_current_expr Sample.x_plus_0_eq_5 "") Sample.x_plus_0_eq_x
          "remove zero" = some (b, t1) ∧
        (b = true ↔ [Expression.create_equality (Expression.create_symbol "x")
          (Expression.create_symbol "5")] ≠ []) ∧
        (∀ first rest, [Expression.create_equality (Expression.create_symbol "x")
            (Expression.create_symbol "5")] = first :: rest →
          t1.current = some first ∧
            t1.history = (Sample.fresh.set_current_expr Sample.x_plus_0_eq_5 "").history ++
              [(first, "remove zero")] ∧
            t1.error_messages =
              (Sample.fresh.set_current_expr Sample.x_plus_0_eq_5 "").error_messages) ∧
        ([Expression.create_equality (Expression.create_symbol "x")
            (Expression.create_symbol "5")] = [] →
          b = false ∧
            t1.error_messages =
              (Sample.fresh.set_current_expr Sample.x_plus_0_eq_5 "").error_messages ++
                ["failed to apply rule: " ++ "remove zero"] ∧
            t1.current = (Sample.fresh.set_current_expr Sample.x_plus_0_eq_5 "").current ∧
            t1.history = (Sample.fresh.set_current_expr Sample.x_plus_0_eq_5 "").history) :=
  ⟨rfl, by rfl, by rfl,
    apply_rule_expr_first_candidate Sample.env
      (Sample.fresh.set_current_expr Sample.x_plus_0_eq_5 "") Sample.x_plus_0_eq_5
      Sample.x_plus_0_eq_x "remove zero" _ rfl (by rfl) (by rfl)⟩

end claims

/-! ## Claims about applying a function to both sides -/

mutual
/-- The loop of `replace_expression_symbol` keeps the root of its argument and
performs the symbol substitution on the children. -/
theorem replace_expression_symbol_eq (varname : String) (e : Expression) :
    ∀ f : Expression, replace_expression_symbol f varname e =
      .mk f.type f.symbol f.bracketed (substitute_symbol_children f.children varname e)
  | .mk t s b cs => by
    rw [replace_expression_symbol, replace_expression_symbol_loop_eq varname e cs]
    rfl
/-- The loop body agrees with the symbol substitution on every child. -/
theorem replace_expression_symbol_loop_eq (varname : String) (e : Expression) :
    ∀ cs : List Expression, replace_expression_symbol_loop cs varname e =
      substitute_symbol_children cs varname e
  | [] => by rw [replace_expression_symbol_loop, substitute_symbol_children]
  | .mk t s b cs1 :: rest => by
    rw [replace_expression_symbol_loop, substitute_symbol_children,
      replace_expression_symbol_loop_eq varname e rest, Expression.copy_eq,
      replace_expression_symbol_eq varname e (.mk t s b cs1), substitute_symbol]
    rfl
end

/-- When the root of `f` does not carry the symbol, the loop of
`replace_expression_symbol` is the symbol substitution on all of `f`. -/
theorem replace_expression_symbol_of_root_ne (varname : String) (e f : Expression)
    (h : f.symbol ≠ varname) :
    replace_expression_symbol f varname e = substitute_symbol f varname e := by
  rw [replace_expression_symbol_eq]
  cases f with
  | mk t s b cs =>
    have hs : (s == varname) = false := by simpa [Expression.symbol] using h
    rw [substitute_symbol]
    simp [hs, Expression.type, Expression.symbol, Expression.bracketed, Expression.children]

section claims_function
variable {Operator : Type}

/-- The result of `apply_function_to_both_side_expr` on an equality. -/
theorem Task.apply_function_to_both_side_expr_on_equality (env : Env Operator) (t : Task)
    (cur l r f : Expression) (varname name : String)
    (hcur : t.current = some cur) (hsym : cur.symbol = "=") (hch : cur.children = [l, r]) :
    Task.apply_function_to_both_side_expr env t f varname name =
      some (true, t.set_current_expr
        (Expression.create_equality (replace_expression_symbol f varname l)
          (replace_expression_symbol f varname r))
        (if name == "" then "apply " ++ env.to_string f ++ " to both side" else name)) := by
  unfold Task.apply_function_to_both_side_expr
  rw [hcur]
  simp only [hsym, bne_self_eq_false, Bool.false_eq_true, if_false, hch, Expression.copy_eq]
  rfl

/-- C4 as the code has it: on a task whose current statement is an equality
`l = r`, for every expression `f` whose root does not carry the symbol
`varname`, `apply_function_to_both_side_expr(f, varname, name)` returns `true`
and sets `current` to the equality of `f` with every node whose symbol is
`varname`, leaf or not, replaced by `l`, and `f` with every such node replaced
by `r`; one history entry with the new current statement is appended. -/
theorem apply_function_to_both_side_expr_substitutes (env : Env Operator) (t : Task)
    (cur l r f : Expression) (varname name : String)
    (hcur : t.current = some cur) (hsym : cur.symbol = "=") (hch : cur.children = [l, r])
    (hroot : f.symbol ≠ varname) :
    ∃ t1, Task.apply_function_to_both_side_expr env t f varname name = some (true, t1) ∧
      t1.current = some (Expression.create_equality (substitute_symbol f varname l)
        (substitute_symbol f varname r)) ∧
      ∃ label, t1.history = t.history ++
        [(Expression.create_equality (substitute_symbol f varname l)
          (substitute_symbol f varname r), label)] := by
  rw [Task.apply_function_to_both_side_expr_on_equality env t cur l r f varname name hcur hsym
    hch, replace_expression_symbol_of_root_ne varname l f hroot,
    replace_expression_symbol_of_root_ne varname r f hroot]
  exact ⟨_, rfl, rfl, _, rfl⟩

/-- C4 as the code has it, on `x + 3 = 5` with the function `X + 1` and the
symbol `X`. -/
theorem apply_function_to_both_side_expr_substitutes_witness :
    Sample.task_x_plus_3.current = some Sample.x_plus_3_eq_5 ∧
      Sample.x_plus_3_eq_5.symbol = "=" ∧
      Sample.x_plus_3_eq_5.children = [Sample.x_plus_3, Expression.create_symbol "5"] ∧
      (Sample.binary "+" (Expression.create_symbol "X") (Expression.create_symbol "1")).symbol
        ≠ "X" ∧
      ∃ t1, Task.apply_function_to_both_side_expr Sample.env Sample.task_x_plus_3
          (Sample.binary "+" (Expression.create_symbol "X") (Expression.create_symbol "1"))
          "X" "add one" = some (true, t1) ∧
        t1.current = some (Expression.create_equality
          (substitute_symbol
            (Sample.binary "+" (Expression.create_symbol "X") (Expression.create_symbol "1"))
            "X" Sample.x_plus_3)
          (substitute_symbol
            (Sample.binary "+" (Expression.create_symbol "X") (Expression.create_symbol "1"))
            "X" (Expression.create_symbol "5"))) ∧
        ∃ label, t1.history = Sample.task_x_plus_3.history ++
          [(Expression.create_equality
            (substitute_symbol
              (Sample.binary "+" (Expression.create_symbol "X") (Expression.create_symbol "1"))
              "X" Sample.x_plus_3)
            (substitute_symbol
              (Sample.binary "+" (Expression.create_symbol "X") (Expression.create_symbol "1"))
              "X" (Expression.create_symbol "5")), label)] :=
  ⟨rfl, by rfl, by rfl, by decide,
    apply_function_to_both_side_expr_substitutes Sample.env Sample.task_x_plus_3
      Sample.x_plus_3_eq_5 Sample.x_plus_3 (Expression.create_symbol "5")
      (Sample.binary "+" (Expression.create_symbol "X") (Expression.create_symbol "1"))
      "X" "add one" rfl (by rfl) (by rfl) (by decide)⟩

/-- C4 fails as stated, in both cases it names, on the current statement
`x + 3 = 5`. With `f` the single leaf `X` and the symbol `X`, the new current
statement is `X = X` and not `x + 3 = 5`. With `f` the tree `f(y) + 1` and
the symbol `f`, the non-leaf node `f(y)` is replaced: the new current
statement is `(x + 3) + 1 = 5 + 1`, while the leaf substitution keeps `f`. -/
theorem apply_function_to_both_side_expr_not_leaf_substitution :
    (∃ t1, Task.apply_function_to_both_side_expr Sample.env Sample.task_x_plus_3
        (Expression.create_symbol "X") "X" "identity" = some (true, t1) ∧
      t1.current = some (Expression.create_equality (Expression.create_symbol "X")
        (Expression.create_symbol "X")) ∧
      substitute_leaves (Expression.create_symbol "X") "X" Sample.x_plus_3 = Sample.x_plus_3 ∧
      t1.current ≠ some (Expression.create_equality
        (substitute_leaves (Expression.create_symbol "X") "X" Sample.x_plus_3)
        (substitute_leaves (Expression.create_symbol "X") "X" (Expression.create_symbol "5")))) ∧
    (∃ t1, Task.apply_function_to_both_side_expr Sample.env Sample.task_x_plus_3
        (Sample.binary "+"
          (Expression.mk ExpType.EXPRESSION_OPERATOR_UNARY "f" false
            [Expression.create_symbol "y"])
          (Expression.create_symbol "1"))
        "f" "apply" = some (true, t1) ∧
      t1.current = some (Expression.create_equality
        (Sample.binary "+" Sample.x_plus_3 (Expression.create_symbol "1"))
        (Sample.binary "+" (Expression.create_symbol "5") (Expression.create_symbol "1"))) ∧
      t1.current ≠ some (Expression.create_equality
        (substitute_leaves
          (Sample.binary "+"
            (Expression.mk ExpType.EXPRESSION_OPERATOR_UNARY "f" false
              [Expression.create_symbol "y"])
            (Expression.create_symbol "1"))
          "f" Sample.x_plus_3)
        (substitute_leaves
          (Sample.binary "+"
            (Expression.mk ExpType.EXPRESSION_OPERATOR_UNARY "f" false
              [Expression.create_symbol "y"])
            (Expression.create_symbol "1"))
          "f" (Expression.create_symbol "5")))) :=
  ⟨⟨_, by rfl, by rfl, by rfl, by decide⟩, ⟨_, by rfl, by rfl, by decide⟩⟩

/-- The default label built by `apply_arithmetic_to_both_side` is never the
empty string, so the callee does not replace it by its own default. -/
theorem arithmetic_label_ne_empty (opname value : String) :
    (opname ++ " both side by " ++ value == "") = false := by
  have hlen : (opname ++ " both side by " ++ value).length ≠ "".length := by
    simp only [String.length_append]
    have h1 : " both side by ".length = 14 := by decide
    have h2 : "".length = 0 := by decide
    omega
  have hne : opname ++ " both side by " ++ value ≠ "" := fun h => hlen (congrArg String.length h)
  simpa using hne

/-- The result of `apply_arithmetic_to_both_side` on an equality `l = r`: the
left child of each new side is the old side; the right child is the value
leaf, except that the operand text `X`, which is the placeholder the function
substitutes for, is itself replaced by the old side. -/
theorem Task.apply_arithmetic_to_both_side_on_equality (env : Env Operator) (t : Task)
    (cur l r : Expression) (op : Operator) (value name : String)
    (hcur : t.current = some cur) (hsym : cur.symbol = "=") (hch : cur.children = [l, r]) :
    Task.apply_arithmetic_to_both_side env t op value name =
      some (true, t.set_current_expr
        (Expression.create_equality
          (.mk ExpType.EXPRESSION_OPERATOR_BINARY (env.operator_symbol op) false
            [l, if value == "X" then l else Expression.create_symbol value])
          (.mk ExpType.EXPRESSION_OPERATOR_BINARY (env.operator_symbol op) false
            [r, if value == "X" then r else Expression.create_symbol value]))
        (if name == "" then env.operator_name op ++ " both side by " ++ value else name)) := by
  unfold Task.apply_arithmetic_to_both_side
  simp only []
  rw [Task.apply_function_to_both_side_expr_on_equality env t cur l r _ "X" _ hcur hsym hch]
  have hlabel := arithmetic_label_ne_empty (env.operator_name op) value
  by_cases hv : (value == "X") = true
  · by_cases hn : (name == "") = true <;>
      simp [replace_expression_symbol, replace_expression_symbol_loop,
        Expression.create_symbol, Expression.symbol, Expression.copy_eq, hv, hn, hlabel]
  · by_cases hn : (name == "") = true <;>
      simp [replace_expression_symbol, replace_expression_symbol_loop,
        Expression.create_symbol, Expression.symbol, Expression.copy_eq, hv, hn, hlabel]

/-- C5, the failing input: on the current statement `x + 3 = 5`,
`apply_arithmetic_to_both_side(Subtract, "X", "")` returns `true` with the new
current statement `(x + 3) - (x + 3) = 5 - 5`, labelled
`subtract both side by X`: the right operands are the old sides, not the value
leaf `X`. -/
theorem apply_arithmetic_to_both_side_placeholder_operand :
    Task.apply_arithmetic_to_both_side Sample.env Sample.task_x_plus_3
        Sample.Operator.SUBTRACT "X" "" =
      some (true, Sample.task_x_plus_3.set_current_expr
        (Expression.create_equality (Sample.binary "-" Sample.x_plus_3 Sample.x_plus_3)
          (Sample.binary "-" (Expression.create_symbol "5") (Expression.create_symbol "5")))
        "subtract both side by X") := by
  rfl

/-- For every operand text other than the placeholder `X`,
`apply_arithmetic_to_both_side(op, v, "")` on an equality `l = r` returns
`true`, sets `current` to `(l op v) = (r op v)` with `v` a value leaf, and
appends exactly one history entry, labelled with the operator name followed by
` both side by ` and `v`. -/
theorem apply_arithmetic_to_both_side_of_value_ne (env : Env Operator) (t : Task)
    (cur l r : Expression) (op : Operator) (v : String)
    (hcur : t.current = some cur) (hsym : cur.symbol = "=") (hch : cur.children = [l, r])
    (hv : v ≠ "X") :
    ∃ t1, Task.apply_arithmetic_to_both_side env t op v "" = some (true, t1) ∧
      t1.current = some (Expression.create_equality
        (.mk ExpType.EXPRESSION_OPERATOR_BINARY (env.operator_symbol op) false
          [l, Expression.create_symbol v])
        (.mk ExpType.EXPRESSION_OPERATOR_BINARY (env.operator_symbol op) false
          [r, Expression.create_symbol v])) ∧
      t1.history = t.history ++
        [(Expression.create_equality
          (.mk ExpType.EXPRESSION_OPERATOR_BINARY (env.operator_symbol op) false
            [l, Expression.create_symbol v])
          (.mk ExpType.EXPRESSION_OPERATOR_BINARY (env.operator_symbol op) false
            [r, Expression.create_symbol v]),
          env.operator_name op ++ " both side by " ++ v)] := by
  rw [Task.apply_arithmetic_to_both_side_on_equality env t cur l r op v "" hcur hsym hch]
  have hv1 : (v == "X") = false := by simpa using hv
  simp only [hv1, Bool.false_eq_true, if_false, beq_self_eq_true, if_true]
  exact ⟨_, rfl, rfl, rfl⟩

/-- The operand `3` on `x + 3 = 5` with the sample subtraction: the label is
`subtract both side by 3`. -/
theorem apply_arithmetic_to_both_side_of_value_ne_witness :
    Sample.task_x_plus_3.current = some Sample.x_plus_3_eq_5 ∧
      Sample.x_plus_3_eq_5.symbol = "=" ∧
      Sample.x_plus_3_eq_5.children = [Sample.x_plus_3, Expression.create_symbol "5"] ∧
      "3" ≠ "X" ∧
      ∃ t1, Task.apply_arithmetic_to_both_side Sample.env Sample.task_x_plus_3
          Sample.Operator.SUBTRACT "3" "" = some (true, t1) ∧
        t1.current = some (Expression.create_equality
          (.mk ExpType.EXPRESSION_OPERATOR_BINARY
            (Sample.env.operator_symbol Sample.Operator.SUBTRACT) false
            [Sample.x_plus_3, Expression.create_symbol "3"])
          (.mk ExpType.EXPRESSION_OPERATOR_BINARY
            (Sample.env.operator_symbol Sample.Operator.SUBTRACT) false
            [Expression.create_symbol "5", Expression.create_symbol "3"])) ∧
        t1.history = Sample.task_x_plus_3.history ++
          [(Expression.create_equality
            (.mk ExpType.EXPRESSION_OPERATOR_BINARY
              (Sample.env.operator_symbol Sample.Operator.SUBTRACT) false
              [Sample.x_plus_3, Expression.create_symbol "3"])
            (.mk ExpType.EXPRESSION_OPERATOR_BINARY
              (Sample.env.operator_symbol Sample.Operator.SUBTRACT) false
              [Expression.create_symbol "5", Expression.create_symbol "3"]),
            Sample.env.operator_name Sample.Operator.SUBTRACT ++ " both side by " ++ "3")] :=
  ⟨rfl, by rfl, by rfl, by decide,
    apply_arithmetic_to_both_side_of_value_ne Sample.env Sample.task_x_plus_3
      Sample.x_plus_3_eq_5 Sample.x_plus_3 (Expression.create_symbol "5")
      Sample.Operator.SUBTRACT "3" rfl (by rfl) (by rfl) (by decide)⟩

/-- C6 as the code has it: on a task whose current statement is an equality
`l = r` with `l` a binary node that is not bracketed, after
`apply_arithmetic_to_both_side(op, v, name)` the left operand of the new left
side is `l` itself, so its bracketed flag is still `false`; and for
`x + 3 = 5`, `Subtract` and `3` the rendering of the new current statement is
the token sequence `x + 3 - 3 = 5 - 3`, without parenthesis tokens. -/
theorem apply_arithmetic_to_both_side_keeps_flag (env : Env Operator) (t : Task)
    (cur l r : Expression) (op : Operator) (v name : String)
    (hcur : t.current = some cur) (hsym : cur.symbol = "=") (hch : cur.children = [l, r])
    (_hbin : l.type = ExpType.EXPRESSION_OPERATOR_BINARY) (hflag : l.bracketed = false) :
    (∃ t1 newcur operand, Task.apply_arithmetic_to_both_side env t op v name = some (true, t1) ∧
      t1.current = some newcur ∧ newcur.at [0, 0] = some operand ∧ operand = l ∧
      operand.bracketed = false) ∧
    (∃ t1 newcur, Task.apply_arithmetic_to_both_side Sample.env Sample.task_x_plus_3
        Sample.Operator.SUBTRACT "3" "" = some (true, t1) ∧ t1.current = some newcur ∧
      BlockDisplay.token_values (BlockDisplay.from_expression newcur Sample.ctx) =
        some ["x", "+", "3", "-", "3", "=", "5", "-", "3"]) := by
  constructor
  · rw [Task.apply_arithmetic_to_both_side_on_equality env t cur l r op v name hcur hsym hch]
    exact ⟨_, _, l, rfl, rfl, by rfl, rfl, hflag⟩
  · exact ⟨_, _, by rfl, by rfl, by rfl⟩

/-- C6 as the code has it, on `x + 3 = 5` with the sample subtraction. -/
theorem apply_arithmetic_to_both_side_keeps_flag_witness :
    Sample.task_x_plus_3.current = some Sample.x_plus_3_eq_5 ∧
      Sample.x_plus_3_eq_5.symbol = "=" ∧
      Sample.x_plus_3_eq_5.children = [Sample.x_plus_3, Expression.create_symbol "5"] ∧
      Sample.x_plus_3.type = ExpType.EXPRESSION_OPERATOR_BINARY ∧
      Sample.x_plus_3.bracketed = false ∧
      ((∃ t1 newcur operand, Task.apply_arithmetic_to_both_side Sample.env
          Sample.task_x_plus_3 Sample.Operator.SUBTRACT "3" "" = some (true, t1) ∧
        t1.current = some newcur ∧ newcur.at [0, 0] = some operand ∧
        operand = Sample.x_plus_3 ∧ operand.bracketed = false) ∧
      (∃ t1 newcur, Task.apply_arithmetic_to_both_side Sample.env Sample.task_x_plus_3
          Sample.Operator.SUBTRACT "3" "" = some (true, t1) ∧ t1.current = some newcur ∧
        BlockDisplay.token_values (BlockDisplay.from_expression newcur Sample.ctx) =
          some ["x", "+", "3", "-", "3", "=", "5", "-", "3"])) :=
  ⟨rfl, by rfl, by rfl, by rfl, by rfl,
    apply_arithmetic_to_both_side_keeps_flag Sample.env Sample.task_x_plus_3
      Sample.x_plus_3_eq_5 Sample.x_plus_3 (Expression.create_symbol "5")
      Sample.Operator.SUBTRACT "3" "" rfl (by rfl) (by rfl) (by rfl) (by rfl)⟩

/-- C6 fails as stated: on `x + 3 = 5` with `Subtract` and `3`, the left
operand of the new left side has its bracketed flag `false`, the new current
statement is not the tree of `(x + 3) - 3 = 5 - 3` with a bracketed `x + 3`,
and the rendering has no `(` and no `)` token. -/
theorem apply_arithmetic_to_both_side_no_parentheses :
    ∃ t1 newcur operand, Task.apply_arithmetic_to_both_side Sample.env Sample.task_x_plus_3
        Sample.Operator.SUBTRACT "3" "" = some (true, t1) ∧
      t1.current = some newcur ∧ newcur.at [0, 0] = some operand ∧
      operand.bracketed = false ∧
      newcur ≠ Expression.create_equality
        (Sample.binary "-"
          (Expression.mk ExpType.EXPRESSION_OPERATOR_BINARY "+" true
            [Expression.create_symbol "x", Expression.create_symbol "3"])
          (Expression.create_symbol "3"))
        (Sample.binary "-" (Expression.create_symbol "5") (Expression.create_symbol "3")) ∧
      ∃ tokens, BlockDisplay.token_values (BlockDisplay.from_expression newcur Sample.ctx) =
          some tokens ∧ "(" ∉ tokens ∧ ")" ∉ tokens :=
  ⟨_, _, _, by rfl, by rfl, by rfl, by rfl, by decide, _, by rfl, by decide, by decide⟩

end claims_function

/-! ## Claims about rules, unset statements and silent failures -/

section claims_rules
variable {Operator : Type}

/-- C7 as the code has it: when the parser accepts `text` as `e`, after
`add_rule_eq(name, text)` the rule map binds `name` to `e` if `name` was
unbound before; if `name` was already bound, its earlier binding is kept (the
map's `insert` does not overwrite); every other name keeps its binding. -/
theorem add_rule_eq_binds_unless_bound (env : Env Operator) (t : Task) (name text : String)
    (e : Expression) (hparse : env.parse_statement text "=" t.context = some e) :
    (RuleMap.find t.rules name = none →
      RuleMap.find (Task.add_rule_eq env t name text).rules name = some e) ∧
    (∀ old, RuleMap.find t.rules name = some old →
      RuleMap.find (Task.add_rule_eq env t name text).rules name = some old) ∧
    (∀ other, other ≠ name →
      RuleMap.find (Task.add_rule_eq env t name text).rules other =
        RuleMap.find t.rules other) := by
  have hrules : (Task.add_rule_eq env t name text).rules = RuleMap.insert t.rules name e := by
    unfold Task.add_rule_eq
    rw [hparse]
    rfl
  rw [hrules]
  unfold RuleMap.insert map_contain
  refine ⟨?_, ?_, ?_⟩
  · intro hnone
    simp [hnone, RuleMap.find_append]
  · intro old hold
    simp [hold]
  · intro other hother
    cases hf : RuleMap.find t.rules name with
    | some v => simp
    | none =>
      simp only [Option.isSome_none, Bool.false_eq_true, if_false, RuleMap.find_append]
      cases RuleMap.find t.rules other with
      | some w => rfl
      | none =>
        have hk : (name == other) = false := by simpa using fun h => hother h.symm
        simp [hk]

/-- C7 as the code has it, on the sample task without rules, the name `zero`
and the text `a + 0 = a`. -/
theorem add_rule_eq_binds_unless_bound_witness :
    Sample.env.parse_statement "a + 0 = a" "=" Sample.fresh.context =
        some Sample.a_plus_0_eq_a ∧
      ((RuleMap.find Sample.fresh.rules "zero" = none →
        RuleMap.find (Task.add_rule_eq Sample.env Sample.fresh "zero" "a + 0 = a").rules "zero" =
          some Sample.a_plus_0_eq_a) ∧
      (∀ old, RuleMap.find Sample.fresh.rules "zero" = some old →
        RuleMap.find (Task.add_rule_eq Sample.env Sample.fresh "zero" "a + 0 = a").rules "zero" =
          some old) ∧
      (∀ other, other ≠ "zero" →
        RuleMap.find (Task.add_rule_eq Sample.env Sample.fresh "zero" "a + 0 = a").rules other =
          RuleMap.find Sample.fresh.rules other)) :=
  ⟨by rfl, add_rule_eq_binds_unless_bound Sample.env Sample.fresh "zero" "a + 0 = a"
    Sample.a_plus_0_eq_a (by rfl)⟩

/-- C7 fails as stated: with `zero` already bound to `a + 0 = a`,
`add_rule_eq("zero", "a * 1 = a")`, whose text the parser accepts as the tree
of `a * 1 = a`, leaves `zero` bound to `a + 0 = a`. -/
theorem add_rule_eq_does_not_overwrite :
    Sample.env.parse_statement "a * 1 = a" "="
        (Sample.fresh.add_rule_expr "zero" Sample.a_plus_0_eq_a).context =
      some Sample.a_times_1_eq_a ∧
    RuleMap.find (Task.add_rule_eq Sample.env
        (Sample.fresh.add_rule_expr "zero" Sample.a_plus_0_eq_a) "zero" "a * 1 = a").rules
        "zero" = some Sample.a_plus_0_eq_a ∧
    RuleMap.find (Task.add_rule_eq Sample.env
        (Sample.fresh.add_rule_expr "zero" Sample.a_plus_0_eq_a) "zero" "a * 1 = a").rules
        "zero" ≠ some Sample.a_times_1_eq_a :=
  ⟨by rfl, by rfl, by decide⟩

/-- C8, the failing inputs: on a task whose current statement is unset, the
two wrappers that go through the guarded operations return `false` after one
message, and each of the five `turn`/`remove` wrappers does not return: it
calls `current.value()` on the empty optional, which throws. -/
theorem arithmetic_wrappers_on_unset_current (env : Env Operator) (t : Task) (op : Operator)
    (a b name : String) (hcur : t.current = none) :
    Task.apply_arithmetic_to_both_side env t op a name =
        some (false, t.push_error "current statement is not set") ∧
      (∃ msg, Task.apply_arithmetic_calculation env t a b op name =
        some (false, t.push_error msg)) ∧
      Task.apply_arithmetic_turn_subtraction_to_addition env t name = none ∧
      Task.apply_arithmetic_turn_addition_to_subtraction env t name = none ∧
      Task.apply_arithmetic_turn_division_to_multiplication env t name = none ∧
      Task.apply_arithmetic_turn_multiplication_to_division env t name = none ∧
      Task.apply_arithmetic_remove_assoc_parentheses env t name = none := by
  refine ⟨?_, ?_, ?_, ?_, ?_, ?_, ?_⟩
  · simp [Task.apply_arithmetic_to_both_side, Task.apply_function_to_both_side_expr, hcur]
  · unfold Task.apply_arithmetic_calculation
    cases env.create_calculation a b op with
    | none => exact ⟨_, rfl⟩
    | some e => exact ⟨"current statement is not set", by simp [Task.apply_rule_expr, hcur]⟩
  · simp [Task.apply_arithmetic_turn_subtraction_to_addition, hcur]
  · simp [Task.apply_arithmetic_turn_addition_to_subtraction, hcur]
  · simp [Task.apply_arithmetic_turn_division_to_multiplication, hcur]
  · simp [Task.apply_arithmetic_turn_multiplication_to_division, hcur]
  · simp [Task.apply_arithmetic_remove_assoc_parentheses, hcur]

/-- C8 on the sample fresh task. -/
theorem arithmetic_wrappers_on_unset_current_witness :
    Sample.fresh.current = none ∧
      (Task.apply_arithmetic_to_both_side Sample.env Sample.fresh Sample.Operator.SUBTRACT
          "3" "" = some (false, Sample.fresh.push_error "current statement is not set") ∧
        (∃ msg, Task.apply_arithmetic_calculation Sample.env Sample.fresh "3" "5"
          Sample.Operator.SUBTRACT "" = some (false, Sample.fresh.push_error msg)) ∧
        Task.apply_arithmetic_turn_subtraction_to_addition Sample.env Sample.fresh "" = none ∧
        Task.apply_arithmetic_turn_addition_to_subtraction Sample.env Sample.fresh "" = none ∧
        Task.apply_arithmetic_turn_division_to_multiplication Sample.env Sample.fresh "" = none ∧
        Task.apply_arithmetic_turn_multiplication_to_division Sample.env Sample.fresh "" = none ∧
        Task.apply_arithmetic_remove_assoc_parentheses Sample.env Sample.fresh "" = none) :=
  ⟨rfl, arithmetic_wrappers_on_unset_current Sample.env Sample.fresh Sample.Operator.SUBTRACT
    "3" "5" "" rfl⟩

/-- C9, the failing inputs: on a text the parser rejects, `set_current_eq` and
`set_target_eq` return `false` and leave the task, `error_messages` included,
exactly as it was: no message is appended. -/
theorem setters_fail_without_message (env : Env Operator) (t : Task) (text : String)
    (hparse : env.parse_statement text "=" t.context = none) :
    Task.set_current_eq env t text = (false, t) ∧
      Task.set_target_eq env t text = (false, t) ∧
      (Task.set_current_eq env t text).2.error_messages.length = t.error_messages.length ∧
      (Task.set_target_eq env t text).2.error_messages.length = t.error_messages.length := by
  simp [Task.set_current_eq, Task.set_target_eq, hparse]

/-- C9 on the sample fresh task and the text `x +`, which the sample parser
rejects. -/
theorem setters_fail_without_message_witness :
    Sample.env.parse_statement "x +" "=" Sample.fresh.context = none ∧
      (Task.set_current_eq Sample.env Sample.fresh "x +" = (false, Sample.fresh) ∧
        Task.set_target_eq Sample.env Sample.fresh "x +" = (false, Sample.fresh) ∧
        (Task.set_current_eq Sample.env Sample.fresh "x +").2.error_messages.length =
          Sample.fresh.error_messages.length ∧
        (Task.set_target_eq Sample.env Sample.fresh "x +").2.error_messages.length =
          Sample.fresh.error_messages.length) :=
  ⟨by rfl, setters_fail_without_message Sample.env Sample.fresh "x +" (by rfl)⟩

/-- Every call other than the two setters that returns `false` appends exactly
one message to `error_messages`. -/
theorem failed_call_appends_message (env : Env Operator) (t t1 : Task) (c : Call Operator)
    (hc1 : ∀ s, c ≠ Call.set_current_eq s) (hc2 : ∀ s, c ≠ Call.set_target_eq s)
    (h : Call.run env t c = some (false, t1)) :
    ∃ msg, t1.error_messages = t.error_messages ++ [msg] := by
  rcases Call.run_ends env t c (false, t1) h with he | ⟨s, hs, _⟩ | ⟨s, hs, _⟩ |
      ⟨s, hs, _⟩ | ⟨s, hs, _⟩
  · rcases he with ⟨_, msg, hm⟩ | ⟨hb, _⟩
    · simp only at hm
      subst hm
      exact ⟨msg, rfl⟩
    · simp at hb
  · exact absurd hs (hc1 s)
  · exact absurd hs (hc1 s)
  · exact absurd hs (hc2 s)
  · exact absurd hs (hc2 s)

/-- A failed `apply_rule` on the sample fresh task appends one message. -/
theorem failed_call_appends_message_witness :
    (∀ s, Call.apply_rule "anything" "" ≠ (Call.set_current_eq s : Call Sample.Operator)) ∧
      (∀ s, Call.apply_rule "anything" "" ≠ (Call.set_target_eq s : Call Sample.Operator)) ∧
      Call.run Sample.env Sample.fresh (Call.apply_rule "anything" "") =
        some (false, Sample.fresh.push_error "rule anything is not defined") ∧
      ∃ msg, (Sample.fresh.push_error "rule anything is not defined").error_messages =
        Sample.fresh.error_messages ++ [msg] :=
  ⟨fun _ h => Call.noConfusion h, fun _ h => Call.noConfusion h, by rfl,
    failed_call_appends_message Sample.env Sample.fresh _ (Call.apply_rule "anything" "")
      (fun _ h => Call.noConfusion h) (fun _ h => Call.noConfusion h) (by rfl)⟩

end claims_rules

/-! ## History monotonicity -/

section claims_history
variable {Operator : Type}

/-- One call other than `set_target_eq`: a `true` result comes with exactly
one appended history entry holding the new current statement, a `false`
result with an unchanged history. -/
theorem Call.run_history (env : Env Operator) (s s1 : Task) (c : Call Operator) (b : Bool)
    (hc : c.is_set_target = false) (h : Call.run env s c = some (b, s1)) :
    (b = true → ∃ e label, s1.current = some e ∧ s1.history = s.history ++ [(e, label)]) ∧
      (b = false → s1.history = s.history) := by
  rcases Call.run_ends env s c (b, s1) h with he | ⟨_, _, hr⟩ | ⟨_, _, e, hr⟩ |
      ⟨x, hx, _⟩ | ⟨x, hx, _⟩
  · rcases he with ⟨hb, msg, hm⟩ | ⟨hb, e, label, hm⟩
    · simp only at hb hm
      subst hb hm
      exact ⟨fun h => Bool.noConfusion h, fun _ => rfl⟩
    · simp only at hb hm
      subst hb hm
      exact ⟨fun _ => ⟨e, label, rfl, rfl⟩, fun h => Bool.noConfusion h⟩
  · cases hr
    exact ⟨fun h => Bool.noConfusion h, fun _ => rfl⟩
  · cases hr
    exact ⟨fun _ => ⟨e, "", rfl, rfl⟩, fun h => Bool.noConfusion h⟩
  · subst hx
    simp [Call.is_set_target] at hc
  · subst hx
    simp [Call.is_set_target] at hc

/-- A run over `done ++ c :: todo` splits into the run over `done`, the call
`c`, and the run over `todo`. -/
theorem run_calls_split (env : Env Operator) :
    ∀ (done : List (Call Operator)) (t t1 : Task) (c : Call Operator)
      (todo : List (Call Operator)) (bs : List Bool),
      run_calls env t (done ++ c :: todo) = some (bs, t1) →
      ∃ bs0 s b s1 bs2, run_calls env t done = some (bs0, s) ∧
        Call.run env s c = some (b, s1) ∧ run_calls env s1 todo = some (bs2, t1) ∧
        bs = bs0 ++ b :: bs2
  | [], t, t1, c, todo, bs, h => by
    simp only [List.nil_append, run_calls] at h
    cases hc : Call.run env t c with
    | none => simp [hc] at h
    | some r =>
      obtain ⟨b, s1⟩ := r
      simp only [hc] at h
      cases hr : run_calls env s1 todo with
      | none => simp [hr] at h
      | some r2 =>
        obtain ⟨bs2, t2⟩ := r2
        simp only [hr, Option.some.injEq, Prod.mk.injEq] at h
        obtain ⟨hbs, ht⟩ := h
        subst ht
        exact ⟨[], t, b, s1, bs2, rfl, hc, hr, by simpa using hbs.symm⟩
  | d :: done, t, t1, c, todo, bs, h => by
    simp only [List.cons_append, run_calls] at h
    cases hd : Call.run env t d with
    | none => simp [hd] at h
    | some r =>
      obtain ⟨b0, t0⟩ := r
      simp only [hd] at h
      cases hr : run_calls env t0 (done ++ c :: todo) with
      | none => simp [hr] at h
      | some r2 =>
        obtain ⟨bsr, t2⟩ := r2
        have hr1 : run_calls env t0 (done.append (c :: todo)) = some (bsr, t2) := hr
        simp only [hr1, Option.some.injEq, Prod.mk.injEq] at h
        obtain ⟨hbs, ht⟩ := h
        subst ht
        obtain ⟨bs0, s, b, s1, bs2, h1, h2, h3, h4⟩ :=
          run_calls_split env done t0 t2 c todo bsr hr
        refine ⟨b0 :: bs0, s, b, s1, bs2, ?_, h2, h3, ?_⟩
        · simp [run_calls, hd, h1]
        · rw [← hbs, h4]
          rfl

/-- Over a run without `set_target_eq`, the history grows by one entry per
`true` result, at the end, and one result is returned per call. -/
theorem run_calls_history (env : Env Operator) :
    ∀ (calls : List (Call Operator)) (t t1 : Task) (bs : List Bool),
      (∀ c ∈ calls, c.is_set_target = false) →
      run_calls env t calls = some (bs, t1) →
      t1.history.length = t.history.length + bs.count true ∧ t.history <+: t1.history ∧
        bs.length = calls.length
  | [], t, t1, bs, _, h => by
    simp only [run_calls, Option.some.injEq, Prod.mk.injEq] at h
    obtain ⟨hbs, ht⟩ := h
    subst hbs ht
    exact ⟨by simp, List.prefix_refl _, rfl⟩
  | c :: rest, t, t1, bs, hcalls, h => by
    simp only [run_calls] at h
    cases hc : Call.run env t c with
    | none => simp [hc] at h
    | some r =>
      obtain ⟨b, s1⟩ := r
      simp only [hc] at h
      cases hr : run_calls env s1 rest with
      | none => simp [hr] at h
      | some r2 =>
        obtain ⟨bs2, t2⟩ := r2
        simp only [hr, Option.some.injEq, Prod.mk.injEq] at h
        obtain ⟨hbs, ht⟩ := h
        subst hbs ht
        have hstep := Call.run_history env t s1 c b (hcalls c (List.mem_cons_self _ _)) hc
        obtain ⟨hlen, hpre, hcount⟩ := run_calls_history env rest s1 t2 bs2
          (fun c1 hc1 => hcalls c1 (List.mem_cons_of_mem _ hc1)) hr
        cases b with
        | true =>
          obtain ⟨e, label, _, hh⟩ := hstep.1 rfl
          refine ⟨?_, ?_, by simp [hcount]⟩
          · rw [hlen, hh]
            simp
            omega
          · exact List.IsPrefix.trans (hh ▸ List.prefix_append _ _) hpre
        | false =>
          have hh := hstep.2 rfl
          refine ⟨?_, ?_, by simp [hcount]⟩
          · rw [hlen, hh]
            simp
          · exact hh ▸ hpre

/-- C10: history monotonicity. For every finite sequence of calls of
`set_current_eq`, `apply_function_to_both_side_expr`,
`apply_function_to_both_side`, `apply_rule_expr`, `apply_rule`,
`try_swap_two_element`, `apply_arithmetic_to_both_side` and
`apply_arithmetic_calculation` on a task that starts with an empty history,
the final history length is the number of calls that returned `true`; each
call that returned `true` appended exactly one entry (new current statement,
label) at the end of the history it found, each call that returned `false`
appended none, and the history after every call is an initial segment of the
final history, so no earlier entry was changed or reordered. -/
theorem history_monotonicity (env : Env Operator) (t t1 : Task) (calls : List (Call Operator))
    (bs : List Bool) (hempty : t.history = [])
    (hcalls : ∀ c ∈ calls, c.is_set_target = false)
    (hrun : run_calls env t calls = some (bs, t1)) :
    t1.history.length = bs.count true ∧ bs.length = calls.length ∧
      ∀ (done : List (Call Operator)) (c : Call Operator) (todo : List (Call Operator)),
        calls = done ++ c :: todo →
        ∃ bs0 s b s1, run_calls env t done = some (bs0, s) ∧
          Call.run env s c = some (b, s1) ∧
          (b = true → ∃ e label, s1.current = some e ∧ s1.history = s.history ++ [(e, label)]) ∧
          (b = false → s1.history = s.history) ∧
          s.history <+: s1.history ∧ s1.history <+: t1.history := by
  obtain ⟨hlen, _, hcount⟩ := run_calls_history env calls t t1 bs hcalls hrun
  refine ⟨by simpa [hempty] using hlen, hcount, ?_⟩
  intro done c todo hsplit
  subst hsplit
  obtain ⟨bs0, s, b, s1, bs2, h1, h2, h3, _⟩ := run_calls_split env done t t1 c todo bs hrun
  have hc : c.is_set_target = false := hcalls c (by simp)
  have hstep := Call.run_history env s s1 c b hc h2
  have htail := run_calls_history env todo s1 t1 bs2
    (fun c1 hc1 => hcalls c1 (by simp [hc1])) h3
  refine ⟨bs0, s, b, s1, h1, h2, hstep.1, hstep.2, ?_, htail.2.1⟩
  cases b with
  | true =>
    obtain ⟨e, label, _, hh⟩ := hstep.1 rfl
    exact hh ▸ List.prefix_append _ _
  | false => exact (hstep.2 rfl) ▸ List.prefix_refl _

/-- C10 on the sample run: five calls, three of which return `true`, leave
three history entries. -/
theorem history_monotonicity_witness :
    Sample.fresh.history = [] ∧
      (∀ c ∈ Sample.calls, c.is_set_target = false) ∧
      run_calls Sample.env Sample.fresh Sample.calls =
        some ([true, false, true, false, true], Sample.after_calls) ∧
      (Sample.after_calls.history.length = [true, false, true, false, true].count true ∧
        [true, false, true, false, true].length = Sample.calls.length ∧
        ∀ (done : List (Call Sample.Operator)) (c : Call Sample.Operator)
          (todo : List (Call Sample.Operator)),
          Sample.calls = done ++ c :: todo →
          ∃ bs0 s b s1, run_calls Sample.env Sample.fresh done = some (bs0, s) ∧
            Call.run Sample.env s c = some (b, s1) ∧
            (b = true →
              ∃ e label, s1.current = some e ∧ s1.history = s.history ++ [(e, label)]) ∧
            (b = false → s1.history = s.history) ∧
            s.history <+: s1.history ∧ s1.history <+: Sample.after_calls.history) :=
  ⟨rfl, by simp [Sample.calls, Call.is_set_target], by rfl,
    history_monotonicity Sample.env Sample.fresh Sample.after_calls Sample.calls
      [true, false, true, false, true] rfl (by simp [Sample.calls, Call.is_set_target])
      (by rfl)⟩

end claims_history

/-! ## Effects of every operation on the Task fields -/

section effects
variable {Operator : Type}

/-- The five whole-statement rewrites end by `set_current_expr` whenever they
return. -/
theorem Task.apply_arithmetic_rewrites_effect (env : Env Operator) (t : Task) (name : String)
    (r : Bool × Task)
    (h : Task.apply_arithmetic_turn_subtraction_to_addition env t name = some r ∨
      Task.apply_arithmetic_turn_addition_to_subtraction env t name = some r ∨
      Task.apply_arithmetic_turn_division_to_multiplication env t name = some r ∨
      Task.apply_arithmetic_turn_multiplication_to_division env t name = some r ∨
      Task.apply_arithmetic_remove_assoc_parentheses env t name = some r) :
    ∃ cur e label, t.current = some cur ∧ r = (true, t.set_current_expr e label) ∧
      (e = env.turn_subtraction_to_addition cur ∨ e = env.turn_addition_to_subtraction cur ∨
        e = env.turn_division_to_multiplication cur ∨
        e = env.turn_multiplication_to_division cur ∨ e = env.remove_assoc_parentheses cur) := by
  unfold Task.apply_arithmetic_turn_subtraction_to_addition
    Task.apply_arithmetic_turn_addition_to_subtraction
    Task.apply_arithmetic_turn_division_to_multiplication
    Task.apply_arithmetic_turn_multiplication_to_division
    Task.apply_arithmetic_remove_assoc_parentheses at h
  cases hcur : t.current with
  | none => simp [hcur] at h
  | some cur =>
    simp only [hcur, Option.some.injEq] at h
    rcases h with h | h | h | h | h
    · exact ⟨cur, _, _, rfl, h.symm, Or.inl rfl⟩
    · exact ⟨cur, _, _, rfl, h.symm, Or.inr (Or.inl rfl)⟩
    · exact ⟨cur, _, _, rfl, h.symm, Or.inr (Or.inr (Or.inl rfl))⟩
    · exact ⟨cur, _, _, rfl, h.symm, Or.inr (Or.inr (Or.inr (Or.inl rfl)))⟩
    · exact ⟨cur, _, _, rfl, h.symm, Or.inr (Or.inr (Or.inr (Or.inr rfl)))⟩

/-- What one operation can do to the task, with the operations that can do
it: nothing, one more error message, one `set_current_expr`, a new target
(only `set_target_eq`), a rule insertion (only `add_rule_expr` and
`add_rule_eq`), or a new `current` without a history entry (only
`init_current_with_target_lhs`). -/
theorem Op.run_effect (env : Env Operator) (t t1 : Task) (op : Op Operator)
    (h : Op.run env t op = some t1) :
    (t1 = t ∨ (∃ msg, t1 = t.push_error msg) ∨ (∃ e label, t1 = t.set_current_expr e label)) ∨
    (∃ s e, op = Op.call (Call.set_target_eq s) ∧ t1 = { t with target := some e }) ∨
    (∃ name e, (op = Op.add_rule_expr name e ∨ ∃ s, op = Op.add_rule_eq name s) ∧
      t1 = t.add_rule_expr name e) ∨
    (op = Op.init_current_with_target_lhs ∧
      ∃ lhs, t1 = { t with current := some (Expression.create_equality lhs lhs) }) := by
  cases op with
  | call c =>
    simp only [Op.run, Option.map_eq_some'] at h
    obtain ⟨r, hr, h1⟩ := h
    subst h1
    rcases Call.run_ends env t c r hr with he | ⟨_, _, hx⟩ | ⟨_, _, e, hx⟩ |
        ⟨_, _, hx⟩ | ⟨s, hs, e, hx⟩
    · rcases he with ⟨_, msg, hm⟩ | ⟨_, e, label, hm⟩
      · exact Or.inl (Or.inr (Or.inl ⟨msg, hm⟩))
      · exact Or.inl (Or.inr (Or.inr ⟨e, label, hm⟩))
    · subst hx; exact Or.inl (Or.inl rfl)
    · subst hx; exact Or.inl (Or.inr (Or.inr ⟨e, "", rfl⟩))
    · subst hx; exact Or.inl (Or.inl rfl)
    · subst hx hs; exact Or.inr (Or.inl ⟨s, e, rfl, rfl⟩)
  | add_rule_expr name e =>
    simp only [Op.run, Option.some.injEq] at h
    exact Or.inr (Or.inr (Or.inl ⟨name, e, Or.inl rfl, h.symm⟩))
  | add_rule_eq name s =>
    simp only [Op.run, Option.some.injEq, Task.add_rule_eq] at h
    cases hp : env.parse_statement s "=" t.context with
    | none =>
      rw [hp] at h
      exact Or.inl (Or.inr (Or.inl ⟨_, h.symm⟩))
    | some e =>
      rw [hp] at h
      exact Or.inr (Or.inr (Or.inl ⟨name, e, Or.inr ⟨s, rfl⟩, h.symm⟩))
  | init_current_with_target_lhs =>
    simp only [Op.run, Task.init_current_with_target_lhs] at h
    cases ht : t.target with
    | none =>
      rw [ht] at h
      simp only [Option.some.injEq] at h
      exact Or.inl (Or.inr (Or.inl ⟨_, h.symm⟩))
    | some target =>
      rw [ht] at h
      dsimp only at h
      cases hc : target.children.get? 0 with
      | none => rw [hc] at h; cases h
      | some lhs =>
        rw [hc] at h
        simp only [Option.some.injEq] at h
        exact Or.inr (Or.inr (Or.inr ⟨rfl, lhs, h.symm⟩))
  | apply_arithmetic_turn_subtraction_to_addition name =>
    simp only [Op.run, Option.map_eq_some'] at h
    obtain ⟨r, hr, h1⟩ := h
    obtain ⟨_, e, label, _, hx, _⟩ :=
      Task.apply_arithmetic_rewrites_effect env t name r (Or.inl hr)
    subst hx h1
    exact Or.inl (Or.inr (Or.inr ⟨e, label, rfl⟩))
  | apply_arithmetic_turn_addition_to_subtraction name =>
    simp only [Op.run, Option.map_eq_some'] at h
    obtain ⟨r, hr, h1⟩ := h
    obtain ⟨_, e, label, _, hx, _⟩ :=
      Task.apply_arithmetic_rewrites_effect env t name r (Or.inr (Or.inl hr))
    subst hx h1
    exact Or.inl (Or.inr (Or.inr ⟨e, label, rfl⟩))
  | apply_arithmetic_turn_division_to_multiplication name =>
    simp only [Op.run, Option.map_eq_some'] at h
    obtain ⟨r, hr, h1⟩ := h
    obtain ⟨_, e, label, _, hx, _⟩ :=
      Task.apply_arithmetic_rewrites_effect env t name r (Or.inr (Or.inr (Or.inl hr)))
    subst hx h1
    exact Or.inl (Or.inr (Or.inr ⟨e, label, rfl⟩))
  | apply_arithmetic_turn_multiplication_to_division name =>
    simp only [Op.run, Option.map_eq_some'] at h
    obtain ⟨r, hr, h1⟩ := h
    obtain ⟨_, e, label, _, hx, _⟩ :=
      Task.apply_arithmetic_rewrites_effect env t name r
        (Or.inr (Or.inr (Or.inr (Or.inl hr))))
    subst hx h1
    exact Or.inl (Or.inr (Or.inr ⟨e, label, rfl⟩))
  | apply_arithmetic_remove_assoc_parentheses name =>
    simp only [Op.run, Option.map_eq_some'] at h
    obtain ⟨r, hr, h1⟩ := h
    obtain ⟨_, e, label, _, hx, _⟩ :=
      Task.apply_arithmetic_rewrites_effect env t name r
        (Or.inr (Or.inr (Or.inr (Or.inr hr))))
    subst hx h1
    exact Or.inl (Or.inr (Or.inr ⟨e, label, rfl⟩))

/-- A rule insertion keeps every binding that was there. -/
theorem RuleMap.find_insert_of_bound (m : RuleMap) (key name : String) (value e : Expression)
    (h : RuleMap.find m name = some e) : RuleMap.find (RuleMap.insert m key value) name = some e := by
  unfold RuleMap.insert
  split
  · exact h
  · rw [RuleMap.find_append, h]

end effects

/-! ## Claims about the history invariant, swapping, seeding and the frame -/

section claims_frame
variable {Operator : Type}

/-- C11, the failing input: from the fresh sample task, `set_target_eq` with
`x + 3 = 5` followed by `init_current_with_target_lhs` gives a task whose
current statement is set, to `x + 3 = x + 3`, while its history is empty. -/
theorem init_current_skips_history :
    ∃ t, run_ops Sample.env Sample.fresh
        [Op.call (Call.set_target_eq "x + 3 = 5"), Op.init_current_with_target_lhs] = some t ∧
      t.current = some (Expression.create_equality Sample.x_plus_3 Sample.x_plus_3) ∧
      t.history = [] :=
  ⟨_, by rfl, by rfl, by rfl⟩

/-- One operation other than `init_current_with_target_lhs` keeps the
property that a set current statement is the expression of the last history
entry. -/
theorem Op.run_history_tracks_current (env : Env Operator) (t t1 : Task) (op : Op Operator)
    (hop : op.is_init = false) (h : Op.run env t op = some t1)
    (hinv : ∀ c, t.current = some c → ∃ entries label, t.history = entries ++ [(c, label)]) :
    ∀ c, t1.current = some c → ∃ entries label, t1.history = entries ++ [(c, label)] := by
  rcases Op.run_effect env t t1 op h with (h1 | ⟨_, h1⟩ | ⟨e, label, h1⟩) | ⟨_, _, _, h1⟩ |
      ⟨_, _, _, h1⟩ | ⟨hinit, _⟩
  · subst h1; exact hinv
  · subst h1; exact hinv
  · subst h1
    intro c hc
    simp only [Task.set_current_expr, Option.some.injEq] at hc
    subst hc
    exact ⟨t.history, label, rfl⟩
  · subst h1; exact hinv
  · subst h1; exact hinv
  · subst hinit
    simp [Op.is_init] at hop

/-- In every state reached from a fresh task by operations other than
`init_current_with_target_lhs`, a set current statement is the expression of
the last history entry. -/
theorem history_tracks_current (env : Env Operator) (ctx : Context) :
    ∀ (ops : List (Op Operator)) (t t1 : Task),
      (∀ c, t.current = some c → ∃ entries label, t.history = entries ++ [(c, label)]) →
      (∀ op ∈ ops, op.is_init = false) → run_ops env t ops = some t1 →
      ∀ c, t1.current = some c → ∃ entries label, t1.history = entries ++ [(c, label)]
  | [], t, t1, hinv, _, h => by
    simp only [run_ops, Option.some.injEq] at h
    subst h
    exact hinv
  | op :: rest, t, t1, hinv, hops, h => by
    simp only [run_ops] at h
    cases hop : Op.run env t op with
    | none => simp [hop] at h
    | some t0 =>
      simp only [hop] at h
      exact history_tracks_current env ctx rest t0 t1
        (Op.run_history_tracks_current env t t0 op (hops op (List.mem_cons_self _ _)) hop hinv)
        (fun o ho => hops o (List.mem_cons_of_mem _ ho)) h

/-- The history invariant on a sample run without seeding from the target. -/
theorem history_tracks_current_witness :
    ∀ c, Sample.after_calls.current = some c →
      ∃ entries label, Sample.after_calls.history = entries ++ [(c, label)] :=
  history_tracks_current Sample.env Sample.ctx (Sample.calls.map Op.call) Sample.fresh
    Sample.after_calls (fun c hc => by cases hc)
    (by simp [Sample.calls, Op.is_init]) (by rfl)

/-- C13: `try_swap_two_element(a1, a2, name)` returns `true` exactly when
`current` is set and `is_in_same_operator_chain(a1, a2)` holds on it; on
success the new current statement is the current one with
`swap_two_element(a1, a2)` applied and one history entry is appended, labelled
`name`, or `rearrange` when `name` is empty; on failure exactly one error
message is appended and `current` and `history` are unchanged. -/
theorem try_swap_two_element_spec (env : Env Operator) (t : Task) (a1 a2 : address)
    (name : String) :
    (∀ t1, Task.try_swap_two_element env t a1 a2 name = some (true, t1) →
      ∃ cur, t.current = some cur ∧ env.is_in_same_operator_chain cur a1 a2 = some true) ∧
    (∀ cur swapped, t.current = some cur →
      env.is_in_same_operator_chain cur a1 a2 = some true →
      env.swap_two_element cur a1 a2 = some swapped →
      ∃ t1, Task.try_swap_two_element env t a1 a2 name = some (true, t1) ∧
        t1.current = some swapped ∧
        t1.history = t.history ++ [(swapped, if name == "" then "rearrange" else name)] ∧
        t1.error_messages = t.error_messages) ∧
    (t.current = none →
      ∃ t1 msg, Task.try_swap_two_element env t a1 a2 name = some (false, t1) ∧
        t1.error_messages = t.error_messages ++ [msg] ∧ t1.current = t.current ∧
        t1.history = t.history) ∧
    (∀ cur, t.current = some cur → env.is_in_same_operator_chain cur a1 a2 = some false →
      ∃ t1 msg, Task.try_swap_two_element env t a1 a2 name = some (false, t1) ∧
        t1.error_messages = t.error_messages ++ [msg] ∧ t1.current = t.current ∧
        t1.history = t.history) := by
  refine ⟨?_, ?_, ?_, ?_⟩
  · intro t1 h
    unfold Task.try_swap_two_element at h
    cases hcur : t.current with
    | none => rw [hcur] at h; cases h
    | some cur =>
      rw [hcur] at h
      dsimp only at h
      rw [Expression.copy_eq] at h
      cases hch : env.is_in_same_operator_chain cur a1 a2 with
      | none => rw [hch] at h; cases h
      | some b =>
        cases b with
        | false => rw [hch] at h; cases h
        | true => exact ⟨cur, rfl, hch⟩
  · intro cur swapped hcur hch hsw
    unfold Task.try_swap_two_element
    rw [hcur]
    dsimp only
    rw [Expression.copy_eq, hch]
    dsimp only
    rw [hsw]
    exact ⟨_, rfl, rfl, rfl, rfl⟩
  · intro hcur
    unfold Task.try_swap_two_element
    rw [hcur]
    exact ⟨_, _, rfl, rfl, hcur.symm ▸ rfl, rfl⟩
  · intro cur hcur hch
    unfold Task.try_swap_two_element
    rw [hcur]
    dsimp only
    rw [Expression.copy_eq, hch]
    exact ⟨_, _, rfl, rfl, hcur.symm ▸ rfl, rfl⟩

/-- C13 on `x + 3 = 5`: swapping the two operands of `x + 3` succeeds with
the label `rearrange` and the new current statement `3 + x = 5`. -/
theorem try_swap_two_element_spec_witness :
    ∃ t1, Task.try_swap_two_element Sample.env Sample.task_x_plus_3 [0, 0] [0, 1] "" =
        some (true, t1) ∧
      t1.current = some (Expression.create_equality
        (Sample.binary "+" (Expression.create_symbol "3") (Expression.create_symbol "x"))
        (Expression.create_symbol "5")) ∧
      t1.history = Sample.task_x_plus_3.history ++
        [(Expression.create_equality
          (Sample.binary "+" (Expression.create_symbol "3") (Expression.create_symbol "x"))
          (Expression.create_symbol "5"), if "" == "" then "rearrange" else "")] ∧
      t1.error_messages = Sample.task_x_plus_3.error_messages :=
  (try_swap_two_element_spec Sample.env Sample.task_x_plus_3 [0, 0] [0, 1] "").2.1
    Sample.x_plus_3_eq_5 _ rfl (by rfl) (by rfl)

/-- C14: if the target is set and its left child is `L`,
`init_current_with_target_lhs` sets `current` to the equality `L = L` and
leaves `target`, `rules` and `error_messages` unchanged (and `history` too);
if the target is unset it appends exactly the message
`target statement is not set` and leaves `current`, `target`, `rules` and
`history` unchanged. -/
theorem init_current_with_target_lhs_spec (t : Task) :
    (∀ target L, t.target = some target → target.children.get? 0 = some L →
      ∃ t1, t.init_current_with_target_lhs = some t1 ∧
        t1.current = some (Expression.create_equality L L) ∧ t1.target = t.target ∧
        t1.rules = t.rules ∧ t1.error_messages = t.error_messages ∧
        t1.history = t.history) ∧
    (t.target = none →
      ∃ t1, t.init_current_with_target_lhs = some t1 ∧
        t1.error_messages = t.error_messages ++ ["target statement is not set"] ∧
        t1.current = t.current ∧ t1.target = t.target ∧ t1.rules = t.rules ∧
        t1.history = t.history) := by
  constructor
  · intro target L ht hL
    unfold Task.init_current_with_target_lhs
    rw [ht]
    dsimp only
    rw [hL]
    exact ⟨_, rfl, rfl, ht.symm ▸ rfl, rfl, rfl, rfl⟩
  · intro ht
    unfold Task.init_current_with_target_lhs
    rw [ht]
    exact ⟨_, rfl, rfl, rfl, ht.symm ▸ rfl, rfl, rfl⟩

/-- C14 on the sample task whose target is `x + 3 = 5`: the current statement
becomes `x + 3 = x + 3`. -/
theorem init_current_with_target_lhs_spec_witness :
    ∃ t1, (Task.set_target_eq Sample.env Sample.fresh "x + 3 = 5").2.init_current_with_target_lhs
        = some t1 ∧
      t1.current = some (Expression.create_equality Sample.x_plus_3 Sample.x_plus_3) ∧
      t1.target = (Task.set_target_eq Sample.env Sample.fresh "x + 3 = 5").2.target ∧
      t1.rules = (Task.set_target_eq Sample.env Sample.fresh "x + 3 = 5").2.rules ∧
      t1.error_messages =
        (Task.set_target_eq Sample.env Sample.fresh "x + 3 = 5").2.error_messages ∧
      t1.history = (Task.set_target_eq Sample.env Sample.fresh "x + 3 = 5").2.history :=
  (init_current_with_target_lhs_spec
    (Task.set_target_eq Sample.env Sample.fresh "x + 3 = 5").2).1
    Sample.x_plus_3_eq_5 Sample.x_plus_3 (by rfl) (by rfl)

/-- C15: the frame of the Task fields. Whenever an operation returns, the
context is unchanged; the target is unchanged unless the operation is
`set_target_eq`; the rules are unchanged unless the operation is
`add_rule_expr` or `add_rule_eq` (so `apply_rule`, on a defined or an
undefined name, adds no entry); and every name bound before the operation is
still bound after it, to the same rule. -/
theorem task_frame (env : Env Operator) (t t1 : Task) (op : Op Operator)
    (h : Op.run env t op = some t1) :
    t1.context = t.context ∧
    ((∀ s, op ≠ Op.call (Call.set_target_eq s)) → t1.target = t.target) ∧
    ((∀ name e, op ≠ Op.add_rule_expr name e) → (∀ name s, op ≠ Op.add_rule_eq name s) →
      t1.rules = t.rules) ∧
    (∀ rulename custom_name, op = Op.call (Call.apply_rule rulename custom_name) →
      t1.rules = t.rules) ∧
    (∀ name e, RuleMap.find t.rules name = some e → RuleMap.find t1.rules name = some e) := by
  rcases Op.run_effect env t t1 op h with (h1 | ⟨_, h1⟩ | ⟨_, _, h1⟩) | ⟨s, _, hs, h1⟩ |
      ⟨name, e, hop, h1⟩ | ⟨_, _, h1⟩
  · subst h1
    exact ⟨rfl, fun _ => rfl, fun _ _ => rfl, fun _ _ _ => rfl, fun _ _ hb => hb⟩
  · subst h1
    exact ⟨rfl, fun _ => rfl, fun _ _ => rfl, fun _ _ _ => rfl, fun _ _ hb => hb⟩
  · subst h1
    exact ⟨rfl, fun _ => rfl, fun _ _ => rfl, fun _ _ _ => rfl, fun _ _ hb => hb⟩
  · subst h1
    exact ⟨rfl, fun hne => absurd hs (hne s), fun _ _ => rfl, fun _ _ _ => rfl,
      fun _ _ hb => hb⟩
  · subst h1
    refine ⟨rfl, fun _ => rfl, ?_, ?_, ?_⟩
    · intro hne1 hne2
      rcases hop with hop | ⟨s, hop⟩
      · exact absurd hop (hne1 name e)
      · exact absurd hop (hne2 name s)
    · intro rn cn hrn
      rcases hop with hop | ⟨s, hop⟩
      · rw [hrn] at hop; cases hop
      · rw [hrn] at hop; cases hop
    · intro n e0 hb
      exact RuleMap.find_insert_of_bound t.rules name n e e0 hb
  · subst h1
    exact ⟨rfl, fun _ => rfl, fun _ _ => rfl, fun _ _ _ => rfl, fun _ _ hb => hb⟩

/-- C15 on the sample task with the rule `zero`: applying the undefined rule
`anything` returns and changes neither context, target nor rules. -/
theorem task_frame_witness :
    Op.run Sample.env (Sample.fresh.add_rule_expr "zero" Sample.a_plus_0_eq_a)
        (Op.call (Call.apply_rule "anything" "")) =
      some ((Sample.fresh.add_rule_expr "zero" Sample.a_plus_0_eq_a).push_error
        "rule anything is not defined") ∧
    ((Sample.fresh.add_rule_expr "zero" Sample.a_plus_0_eq_a).push_error
        "rule anything is not defined").rules =
      (Sample.fresh.add_rule_expr "zero" Sample.a_plus_0_eq_a).rules :=
  ⟨by rfl,
    (task_frame Sample.env (Sample.fresh.add_rule_expr "zero" Sample.a_plus_0_eq_a) _
      (Op.call (Call.apply_rule "anything" "")) (by rfl)).2.2.2.1 "anything" "" rfl⟩

end claims_frame

/-! ## Where a new current statement comes from -/

section sources
variable {Operator : Type}

end sources

/-! ## The sample parser meets the assumption -/

section claims_shape
variable {Operator : Type}

end claims_shape

/-! ## The rendering of a well-formed expression -/

mutual
/-- Induction over expression trees: a property that holds for a node
whenever it holds for all its children holds for every tree. -/
theorem Expression.induction_on {P : Expression → Prop}
    (h : ∀ t s b cs, (∀ c ∈ cs, P c) → P (.mk t s b cs)) : ∀ e : Expression, P e
  | .mk t s b cs => h t s b cs (Expression.induction_on_children h cs)
/-- The property holds for every tree of a list. -/
theorem Expression.induction_on_children {P : Expression → Prop}
    (h : ∀ t s b cs, (∀ c ∈ cs, P c) → P (.mk t s b cs)) :
    ∀ (cs : List Expression), ∀ c ∈ cs, P c
  | [], c, hc => absurd hc (List.not_mem_nil c)
  | d :: ds, c, hc => by
    rcases List.mem_cons.mp hc with hd | hm
    · rw [hd]
      exact Expression.induction_on h d
    · exact Expression.induction_on_children h ds c hm
end

/-- Following an address and then one more index is following the longer
address. -/
theorem Expression.at_append (i : Int) :
    ∀ (addr : address) (root : Expression), root.at (addr ++ [i]) =
      match root.at addr with
      | none => none
      | some e => if i < 0 then none else e.children.get? i.toNat
  | [], root => by
    simp only [List.nil_append, Expression.at]
    split
    · rfl
    · cases root.children.get? i.toNat <;> rfl
  | j :: rest, root => by
    simp only [List.cons_append, Expression.at]
    split
    · rfl
    · cases hc : root.children.get? j.toNat with
      | none => rfl
      | some c => exact Expression.at_append i rest c

/-- A child is lower than the list it belongs to. -/
theorem Expression.height_le_of_mem :
    ∀ (cs : List Expression) (c : Expression), c ∈ cs →
      c.height ≤ Expression.height_children cs
  | [], c, hc => absurd hc (List.not_mem_nil c)
  | d :: ds, c, hc => by
    rw [Expression.height_children]
    rcases List.mem_cons.mp hc with hd | hm
    · rw [hd]
      exact Nat.le_max_left _ _
    · exact Nat.le_trans (Expression.height_le_of_mem ds c hm) (Nat.le_max_right _ _)

/-- Every tree of a well-formed list is well formed. -/
theorem Expression.well_formed_of_mem :
    ∀ (cs : List Expression) (c : Expression), c ∈ cs →
      Expression.well_formed_children cs = true → c.well_formed = true
  | [], c, hc, _ => absurd hc (List.not_mem_nil c)
  | d :: ds, c, hc, h => by
    rw [Expression.well_formed_children, Bool.and_eq_true] at h
    rcases List.mem_cons.mp hc with hd | hm
    · rw [hd]
      exact h.1
    · exact Expression.well_formed_of_mem ds c hm h.2

/-- On a well-formed subtree found at `addr`, with a recursion budget of at
least its height, `__from_expression` ends with the container of the labelled
token sequence of the subtree: no address it forms fails to resolve. -/
theorem BlockDisplay.__from_expression_eq :
    ∀ (e root : Expression) (addr : address) (fuel : Nat),
      root.at addr = some e → e.well_formed = true → e.height ≤ fuel →
      BlockDisplay.__from_expression fuel root addr =
        BlockDisplay.Outcome.done (BlockDisplay.render_block e addr) := by
  intro e
  induction e using Expression.induction_on with
  | h t s b cs ih =>
    intro root addr fuel hat hwf hfuel
    rw [Expression.height] at hfuel
    obtain ⟨f, rfl⟩ : ∃ f, fuel = f + 1 := ⟨fuel - 1, by omega⟩
    have hf : Expression.height_children cs ≤ f := by omega
    unfold Expression.well_formed at hwf
    rw [Bool.and_eq_true] at hwf
    obtain ⟨hlen, hkids⟩ := hwf
    rw [BlockDisplay.__from_expression, hat]
    cases t with
    | EXPRESSION_VALUE =>
      cases b <;>
        simp [BlockDisplay.render_block, labelled_tokens, BlockDisplay.wrap_bracketed,
          BlockDisplay.Block.prepend, BlockDisplay.Block.append, BlockDisplay.token_of,
          Expression.type, Expression.symbol, Expression.bracketed]
    | EXPRESSION_OPERATOR_UNARY =>
      match cs, hlen, ih, hkids, hf with
      | [c], _, ih, hkids, hf =>
        have hc : root.at (addr ++ [0]) = some c := by
          rw [Expression.at_append, hat]
          simp [Expression.children]
        have hrec := ih c (List.mem_cons_self _ _) root (addr ++ [0]) f hc
          (Expression.well_formed_of_mem [c] c (List.mem_cons_self _ _) hkids)
          (Nat.le_trans (Expression.height_le_of_mem [c] c (List.mem_cons_self _ _)) hf)
        simp only [Expression.type, hrec]
        cases b <;>
          simp [BlockDisplay.render_block, labelled_tokens, labelled_tokens_children,
            BlockDisplay.wrap_bracketed, BlockDisplay.Block.prepend, BlockDisplay.Block.append,
            BlockDisplay.Block.append_all, BlockDisplay.Block.children, BlockDisplay.token_of,
            Expression.symbol, Expression.bracketed]
    | EXPRESSION_OPERATOR_BINARY =>
      match cs, hlen, ih, hkids, hf with
      | [l, r], _, ih, hkids, hf =>
        have hl : root.at (addr ++ [0]) = some l := by
          rw [Expression.at_append, hat]
          simp [Expression.children]
        have hr : root.at (addr ++ [1]) = some r := by
          rw [Expression.at_append, hat]
          simp [Expression.children]
        have hrecl := ih l (List.mem_cons_self _ _) root (addr ++ [0]) f hl
          (Expression.well_formed_of_mem [l, r] l (List.mem_cons_self _ _) hkids)
          (Nat.le_trans (Expression.height_le_of_mem [l, r] l (List.mem_cons_self _ _)) hf)
        have hrecr := ih r (by simp) root (addr ++ [1]) f hr
          (Expression.well_formed_of_mem [l, r] r (by simp) hkids)
          (Nat.le_trans (Expression.height_le_of_mem [l, r] r (by simp)) hf)
        simp only [Expression.type, hrecl, hrecr]
        cases b <;>
          simp [BlockDisplay.render_block, labelled_tokens, labelled_tokens_children,
            BlockDisplay.wrap_bracketed, BlockDisplay.Block.prepend, BlockDisplay.Block.append,
            BlockDisplay.Block.append_all, BlockDisplay.Block.prepend_all,
            BlockDisplay.Block.children, BlockDisplay.token_of,
            Expression.symbol, Expression.bracketed]

/-- The texts of the labelled token sequence of a well-formed tree are its
token sequence. -/
theorem labelled_tokens_values :
    ∀ (e : Expression) (addr : address), e.well_formed = true →
      (labelled_tokens e addr).map Prod.fst = tokens e := by
  intro e
  induction e using Expression.induction_on with
  | h t s b cs ih =>
    intro addr hwf
    unfold Expression.well_formed at hwf
    rw [Bool.and_eq_true] at hwf
    obtain ⟨hlen, hkids⟩ := hwf
    cases t with
    | EXPRESSION_VALUE =>
      cases b <;> simp [labelled_tokens, tokens]
    | EXPRESSION_OPERATOR_UNARY =>
      match cs, hlen, ih, hkids with
      | [c], _, ih, hkids =>
        have hc := ih c (List.mem_cons_self _ _) (addr ++ [0])
          (Expression.well_formed_of_mem [c] c (List.mem_cons_self _ _) hkids)
        cases b <;>
          simp [labelled_tokens, labelled_tokens_children, tokens, tokens_children, hc]
    | EXPRESSION_OPERATOR_BINARY =>
      match cs, hlen, ih, hkids with
      | [l, r], _, ih, hkids =>
        have hl := ih l (List.mem_cons_self _ _) (addr ++ [0])
          (Expression.well_formed_of_mem [l, r] l (List.mem_cons_self _ _) hkids)
        have hr := ih r (by simp) (addr ++ [1])
          (Expression.well_formed_of_mem [l, r] r (by simp) hkids)
        cases b <;>
          simp [labelled_tokens, labelled_tokens_children, tokens, tokens_children, hl, hr]

/-- A well-formed tree has one token per node and two more per bracketed
node. -/
theorem tokens_length :
    ∀ e : Expression, e.well_formed = true →
      (tokens e).length = e.size + 2 * e.bracketed_count := by
  intro e
  induction e using Expression.induction_on with
  | h t s b cs ih =>
    intro hwf
    unfold Expression.well_formed at hwf
    rw [Bool.and_eq_true] at hwf
    obtain ⟨hlen, hkids⟩ := hwf
    cases t with
    | EXPRESSION_VALUE =>
      match cs, hlen with
      | [], _ =>
        cases b <;>
          simp [tokens, Expression.size, Expression.size_children, Expression.bracketed_count,
            Expression.bracketed_count_children]
    | EXPRESSION_OPERATOR_UNARY =>
      match cs, hlen, ih, hkids with
      | [c], _, ih, hkids =>
        have hc := ih c (List.mem_cons_self _ _)
          (Expression.well_formed_of_mem [c] c (List.mem_cons_self _ _) hkids)
        cases b <;>
          simp [tokens, tokens_children, Expression.size, Expression.size_children,
            Expression.bracketed_count, Expression.bracketed_count_children, hc] <;> omega
    | EXPRESSION_OPERATOR_BINARY =>
      match cs, hlen, ih, hkids with
      | [l, r], _, ih, hkids =>
        have hl := ih l (List.mem_cons_self _ _)
          (Expression.well_formed_of_mem [l, r] l (List.mem_cons_self _ _) hkids)
        have hr := ih r (by simp)
          (Expression.well_formed_of_mem [l, r] r (by simp) hkids)
        cases b <;>
          simp [tokens, tokens_children, Expression.size, Expression.size_children,
            Expression.bracketed_count, Expression.bracketed_count_children, hl, hr] <;> omega

/-- Every labelled token of a well-formed subtree found at `addr` carries the
address of a node of the tree: the node whose symbol is the token text, or a
bracketed node when the text is a parenthesis. -/
theorem labelled_tokens_resolve :
    ∀ (e root : Expression) (addr : address), root.at addr = some e → e.well_formed = true →
      ∀ p ∈ labelled_tokens e addr, ∃ n, root.at p.2 = some n ∧
        (p.1 = n.symbol ∨ ((p.1 = "(" ∨ p.1 = ")") ∧ n.bracketed = true)) := by
  intro e
  induction e using Expression.induction_on with
  | h t s b cs ih =>
    intro root addr hat hwf p hp
    unfold Expression.well_formed at hwf
    rw [Bool.and_eq_true] at hwf
    obtain ⟨hlen, hkids⟩ := hwf
    have hself : ∃ n, root.at addr = some n ∧
        (s = n.symbol ∨ ((s = "(" ∨ s = ")") ∧ n.bracketed = true)) :=
      ⟨_, hat, Or.inl rfl⟩
    have hparen : b = true → ∀ v, v = "(" ∨ v = ")" → ∃ n, root.at addr = some n ∧
        (v = n.symbol ∨ ((v = "(" ∨ v = ")") ∧ n.bracketed = true)) :=
      fun hb v hv => ⟨_, hat, Or.inr ⟨hv, hb⟩⟩
    cases t with
    | EXPRESSION_VALUE =>
      cases b with
      | false =>
        simp only [labelled_tokens, Bool.false_eq_true, if_false, List.mem_singleton] at hp
        subst hp
        exact hself
      | true =>
        simp only [labelled_tokens, if_true, List.mem_append, List.mem_singleton] at hp
        rcases hp with (hp | hp) | hp
        · subst hp; exact hparen rfl "(" (Or.inl rfl)
        · subst hp; exact hself
        · subst hp; exact hparen rfl ")" (Or.inr rfl)
    | EXPRESSION_OPERATOR_UNARY =>
      match cs, hlen, ih, hkids with
      | [c], _, ih, hkids =>
        have hc : root.at (addr ++ [0]) = some c := by
          rw [Expression.at_append, hat]
          simp [Expression.children]
        have hrec := ih c (List.mem_cons_self _ _) root (addr ++ [0]) hc
          (Expression.well_formed_of_mem [c] c (List.mem_cons_self _ _) hkids)
        cases b with
        | false =>
          simp only [labelled_tokens, labelled_tokens_children, Bool.false_eq_true, if_false,
            List.getD_cons_zero, List.mem_append, List.mem_singleton] at hp
          rcases hp with hp | hp
          · subst hp; exact hself
          · exact hrec p hp
        | true =>
          simp only [labelled_tokens, labelled_tokens_children, if_true,
            List.getD_cons_zero, List.mem_append, List.mem_singleton] at hp
          rcases hp with (hp | hp | hp) | hp
          · subst hp; exact hparen rfl "(" (Or.inl rfl)
          · subst hp; exact hself
          · exact hrec p hp
          · subst hp; exact hparen rfl ")" (Or.inr rfl)
    | EXPRESSION_OPERATOR_BINARY =>
      match cs, hlen, ih, hkids with
      | [l, r], _, ih, hkids =>
        have hl : root.at (addr ++ [0]) = some l := by
          rw [Expression.at_append, hat]
          simp [Expression.children]
        have hr : root.at (addr ++ [0 + 1]) = some r := by
          rw [Expression.at_append, hat]
          simp [Expression.children]
        have hrecl := ih l (List.mem_cons_self _ _) root (addr ++ [0]) hl
          (Expression.well_formed_of_mem [l, r] l (List.mem_cons_self _ _) hkids)
        have hrecr := ih r (by simp) root (addr ++ [0 + 1]) hr
          (Expression.well_formed_of_mem [l, r] r (by simp) hkids)
        cases b with
        | false =>
          simp only [labelled_tokens, labelled_tokens_children, Bool.false_eq_true, if_false,
            List.getD_cons_zero, List.getD_cons_succ, List.mem_append,
            List.mem_singleton] at hp
          rcases hp with (hp | hp) | hp
          · exact hrecl p hp
          · subst hp; exact hself
          · exact hrecr p hp
        | true =>
          simp only [labelled_tokens, labelled_tokens_children, if_true,
            List.getD_cons_zero, List.getD_cons_succ, List.mem_append,
            List.mem_singleton] at hp
          rcases hp with (hp | (hp | hp) | hp) | hp
          · subst hp; exact hparen rfl "(" (Or.inl rfl)
          · exact hrecl p hp
          · subst hp; exact hself
          · exact hrecr p hp
          · subst hp; exact hparen rfl ")" (Or.inr rfl)

/-! ## The neighbour pass on a flat token sequence -/

namespace BlockDisplay

theorem Block.set_leftright_fields (c : Block) (l r : address) :
    (c.set_leftright l r).type = c.type ∧ (c.set_leftright l r).value = c.value ∧
      (c.set_leftright l r).children = c.children ∧
      (c.set_leftright l r).metadata.addr = c.metadata.addr ∧
      (c.set_leftright l r).metadata.leftaddr = l ∧
      (c.set_leftright l r).metadata.rightaddr = r := by
  cases c
  exact ⟨rfl, rfl, rfl, rfl, rfl, rfl⟩

theorem token_of_fields (p : String × address) :
    (token_of p).type = BlockType.VALUE ∧ (token_of p).value = p.1 ∧
      (token_of p).children = [] ∧ (token_of p).metadata.addr = p.2 :=
  ⟨rfl, rfl, rfl, rfl⟩

/-- The loop of the neighbour pass over `VALUE` blocks: the block at position
`j` of the result is the block at position `j` of the input with its left and
right addresses set from the neighbours in the whole child vector. -/
theorem setup_loop_get (all : List Block) :
    ∀ (rest : List Block) (i : Nat), (∀ c ∈ rest, c.type = BlockType.VALUE) →
      ∀ (j : Nat) (tok : Block),
        (__setup_leftright_metadata_loop all i rest).get? j = some tok →
        ∃ c, rest.get? j = some c ∧
          tok = c.set_leftright
            (if i + j > 0 then addr_of_child all (i + j - 1) else [])
            (if i + j < all.length - 1 then addr_of_child all (i + j + 1) else [])
  | [], i, _, j, tok, h => by
    rw [__setup_leftright_metadata_loop] at h
    simp at h
  | c :: rest, i, hv, j, tok, h => by
    rw [__setup_leftright_metadata_loop, if_pos (hv c (List.mem_cons_self _ _))] at h
    cases j with
    | zero =>
      simp only [List.get?_cons_zero, Option.some.injEq] at h
      exact ⟨c, rfl, h.symm⟩
    | succ j =>
      simp only [List.get?_cons_succ] at h
      obtain ⟨c1, hc1, htok⟩ := setup_loop_get all rest (i + 1)
        (fun d hd => hv d (List.mem_cons_of_mem _ hd)) j tok h
      refine ⟨c1, by simpa using hc1, ?_⟩
      have hidx : i + 1 + j = i + (j + 1) := by omega
      rw [hidx] at htok
      exact htok

/-- The loop of the neighbour pass over `VALUE` blocks keeps every block's
type, value and address, in order. -/
theorem setup_loop_fields (all : List Block) :
    ∀ (rest : List Block) (i : Nat), (∀ c ∈ rest, c.type = BlockType.VALUE) →
      (__setup_leftright_metadata_loop all i rest).map Block.type = rest.map Block.type ∧
      (__setup_leftright_metadata_loop all i rest).map Block.value = rest.map Block.value ∧
      (__setup_leftright_metadata_loop all i rest).map (fun c => c.metadata.addr) =
        rest.map (fun c => c.metadata.addr)
  | [], i, _ => by
    rw [__setup_leftright_metadata_loop]
    exact ⟨rfl, rfl, rfl⟩
  | c :: rest, i, hv => by
    rw [__setup_leftright_metadata_loop, if_pos (hv c (List.mem_cons_self _ _))]
    obtain ⟨h1, h2, h3⟩ := setup_loop_fields all rest (i + 1)
      (fun d hd => hv d (List.mem_cons_of_mem _ hd))
    obtain ⟨f1, f2, _, f4, _, _⟩ := Block.set_leftright_fields c
      (if i > 0 then addr_of_child all (i - 1) else [])
      (if i < all.length - 1 then addr_of_child all (i + 1) else [])
    simp [List.map_cons, h1, h2, h3, f1, f2, f4]

/-- A list of childless `VALUE` blocks contains no `FRAC` block. -/
theorem contains_frac_children_of_tokens :
    ∀ cs : List Block, (∀ c ∈ cs, c.type = BlockType.VALUE ∧ c.children = []) →
      Block.contains_frac_children cs = false
  | [], _ => by rw [Block.contains_frac_children]
  | c :: cs, h => by
    rw [Block.contains_frac_children, contains_frac_children_of_tokens cs
      (fun d hd => h d (List.mem_cons_of_mem _ hd))]
    obtain ⟨ht, hc⟩ := h c (List.mem_cons_self _ _)
    cases c with
    | mk ty v kids md =>
      simp only [Block.type, Block.children] at ht hc
      subst ht hc
      simp [Block.contains_frac, Block.contains_frac_children]

/-- The rendering of a well-formed expression: the neighbour pass applied to
the container of the labelled token sequence of the whole tree. -/
theorem from_expression_eq (e : Expression) (ctx : Context) (hwf : e.well_formed = true) :
    __from_expression (e.height + 1) e [] = Outcome.done (render_block e []) ∧
    from_expression e ctx = Outcome.done
      (Block.mk BlockType.BASIC ""
        (__setup_leftright_metadata_loop ((labelled_tokens e []).map token_of) 0
          ((labelled_tokens e []).map token_of))
        Metadata.empty) := by
  have h := __from_expression_eq e e [] (e.height + 1) rfl hwf (Nat.le_succ _)
  refine ⟨h, ?_⟩
  unfold from_expression
  rw [h]
  simp only [render_block, __setup_leftright_metadata]

/-- Every block of the token list of a rendering is a token of the labelled
sequence with its neighbour addresses set. -/
theorem rendered_token (e : Expression) (j : Nat) (tok : Block)
    (h : (__setup_leftright_metadata_loop ((labelled_tokens e []).map token_of) 0
      ((labelled_tokens e []).map token_of)).get? j = some tok) :
    ∃ p, (labelled_tokens e []).get? j = some p ∧
      tok = (token_of p).set_leftright
        (if 0 + j > 0 then addr_of_child ((labelled_tokens e []).map token_of) (0 + j - 1)
          else [])
        (if 0 + j < ((labelled_tokens e []).map token_of).length - 1 then
          addr_of_child ((labelled_tokens e []).map token_of) (0 + j + 1) else []) := by
  have hv : ∀ c ∈ (labelled_tokens e []).map token_of, c.type = BlockType.VALUE := by
    intro c hc
    obtain ⟨p, _, hp⟩ := List.mem_map.mp hc
    rw [← hp]
    rfl
  obtain ⟨c, hc, htok⟩ := setup_loop_get _ _ 0 hv j tok h
  rw [List.get?_eq_getElem?, List.getElem?_map] at hc
  cases hp : (labelled_tokens e [])[j]? with
  | none => rw [hp] at hc; cases hc
  | some p =>
    rw [hp] at hc
    simp only [Option.map_some', Option.some.injEq] at hc
    subst hc
    exact ⟨p, by rw [List.get?_eq_getElem?]; exact hp, htok⟩

end BlockDisplay

/-! ## Claims about the block display -/

/-- C16: for every well-formed expression `e`, `from_expression(e)` is a
`BASIC` block whose children are all childless `VALUE` tokens, the sequence of
token values is `tokens e`, and the token count is the node count plus twice
the number of bracketed nodes. -/
theorem from_expression_flat_tokens (e : Expression) (ctx : Context)
    (hwf : e.well_formed = true) :
    ∃ b, BlockDisplay.from_expression e ctx = BlockDisplay.Outcome.done b ∧
      b.type = BlockDisplay.BlockType.BASIC ∧
      (∀ c ∈ b.children, c.type = BlockDisplay.BlockType.VALUE ∧ c.children = []) ∧
      b.children.map BlockDisplay.Block.value = tokens e ∧
      b.children.length = e.size + 2 * e.bracketed_count := by
  have hv : ∀ c ∈ (labelled_tokens e []).map BlockDisplay.token_of,
      c.type = BlockDisplay.BlockType.VALUE := by
    intro c hc
    obtain ⟨p, _, hp⟩ := List.mem_map.mp hc
    rw [← hp]
    rfl
  have hvalues : (BlockDisplay.__setup_leftright_metadata_loop
      ((labelled_tokens e []).map BlockDisplay.token_of) 0
      ((labelled_tokens e []).map BlockDisplay.token_of)).map BlockDisplay.Block.value =
      tokens e := by
    rw [(BlockDisplay.setup_loop_fields _ _ 0 hv).2.1, List.map_map,
      ← labelled_tokens_values e [] hwf]
    rfl
  refine ⟨_, (BlockDisplay.from_expression_eq e ctx hwf).2, rfl, ?_, hvalues, ?_⟩
  · intro c hc
    obtain ⟨j, hj⟩ := List.mem_iff_get?.mp hc
    obtain ⟨p, _, htok⟩ := BlockDisplay.rendered_token e j c hj
    rw [htok]
    obtain ⟨f1, _, f3, _⟩ := BlockDisplay.Block.set_leftright_fields
      (BlockDisplay.token_of p)
      (if 0 + j > 0 then BlockDisplay.addr_of_child
        ((labelled_tokens e []).map BlockDisplay.token_of) (0 + j - 1) else [])
      (if 0 + j < ((labelled_tokens e []).map BlockDisplay.token_of).length - 1 then
        BlockDisplay.addr_of_child ((labelled_tokens e []).map BlockDisplay.token_of)
          (0 + j + 1) else [])
    exact ⟨f1, f3⟩
  · have hlen := congrArg List.length hvalues
    rw [List.length_map, tokens_length e hwf] at hlen
    exact hlen

/-- C16 on `(x + 3) - f y`: six nodes, one of them bracketed, eight tokens. -/
theorem from_expression_flat_tokens_witness :
    Sample.bracketed_difference.well_formed = true ∧
      tokens Sample.bracketed_difference = ["(", "x", "+", "3", ")", "-", "f", "y"] ∧
      ∃ b, BlockDisplay.from_expression Sample.bracketed_difference Sample.ctx =
          BlockDisplay.Outcome.done b ∧
        b.type = BlockDisplay.BlockType.BASIC ∧
        (∀ c ∈ b.children, c.type = BlockDisplay.BlockType.VALUE ∧ c.children = []) ∧
        b.children.map BlockDisplay.Block.value = tokens Sample.bracketed_difference ∧
        b.children.length =
          Sample.bracketed_difference.size + 2 * Sample.bracketed_difference.bracketed_count :=
  ⟨by rfl, by rfl,
    from_expression_flat_tokens Sample.bracketed_difference Sample.ctx (by rfl)⟩

/-- C17 as the code has it: for every well-formed expression `e` that
contains a binary node with the division symbol `/`, `from_expression(e)`
contains no block of type `FRAC`; it is the flat sequence of the tokens of
`e`, in which a division node contributes the tokens of the numerator, the
token `/` and the tokens of the denominator like any other binary node. -/
theorem from_expression_has_no_fraction (e : Expression) (ctx : Context)
    (hwf : e.well_formed = true) (_hdiv : e.has_division = true) :
    (∃ b, BlockDisplay.from_expression e ctx = BlockDisplay.Outcome.done b ∧
      b.contains_frac = false ∧ b.children.map BlockDisplay.Block.value = tokens e) ∧
    ∀ l r : Expression,
      tokens (Expression.mk ExpType.EXPRESSION_OPERATOR_BINARY "/" false [l, r]) =
        tokens l ++ ["/"] ++ tokens r := by
  constructor
  · have hv : ∀ c ∈ (labelled_tokens e []).map BlockDisplay.token_of,
        c.type = BlockDisplay.BlockType.VALUE := by
      intro c hc
      obtain ⟨p, _, hp⟩ := List.mem_map.mp hc
      rw [← hp]
      rfl
    refine ⟨_, (BlockDisplay.from_expression_eq e ctx hwf).2, ?_, ?_⟩
    · rw [BlockDisplay.Block.contains_frac, BlockDisplay.contains_frac_children_of_tokens]
      · rfl
      · intro c hc
        obtain ⟨j, hj⟩ := List.mem_iff_get?.mp hc
        obtain ⟨p, _, htok⟩ := BlockDisplay.rendered_token e j c hj
        rw [htok]
        obtain ⟨f1, _, f3, _⟩ := BlockDisplay.Block.set_leftright_fields
          (BlockDisplay.token_of p)
          (if 0 + j > 0 then BlockDisplay.addr_of_child
            ((labelled_tokens e []).map BlockDisplay.token_of) (0 + j - 1) else [])
          (if 0 + j < ((labelled_tokens e []).map BlockDisplay.token_of).length - 1 then
            BlockDisplay.addr_of_child ((labelled_tokens e []).map BlockDisplay.token_of)
              (0 + j + 1) else [])
        exact ⟨f1, f3⟩
    · show (BlockDisplay.__setup_leftright_metadata_loop _ 0 _).map BlockDisplay.Block.value = _
      rw [(BlockDisplay.setup_loop_fields _ _ 0 hv).2.1, List.map_map,
        ← labelled_tokens_values e [] hwf]
      rfl
  · intro l r
    simp [tokens, tokens_children]

/-- C17 as the code has it, on `1 / 2`. -/
theorem from_expression_has_no_fraction_witness :
    Sample.one_over_two.well_formed = true ∧ Sample.one_over_two.has_division = true ∧
      ((∃ b, BlockDisplay.from_expression Sample.one_over_two Sample.ctx =
          BlockDisplay.Outcome.done b ∧
        b.contains_frac = false ∧
        b.children.map BlockDisplay.Block.value = tokens Sample.one_over_two) ∧
      ∀ l r : Expression,
        tokens (Expression.mk ExpType.EXPRESSION_OPERATOR_BINARY "/" false [l, r]) =
          tokens l ++ ["/"] ++ tokens r) :=
  ⟨by rfl, by rfl,
    from_expression_has_no_fraction Sample.one_over_two Sample.ctx (by rfl) (by rfl)⟩

/-- C17 fails as stated: `1 / 2` contains a division node, and its rendering
is the `BASIC` block of the three tokens `1`, `/`, `2`, without any `FRAC`
block. -/
theorem division_is_rendered_flat :
    Sample.one_over_two.has_division = true ∧
    ∃ b, BlockDisplay.from_expression Sample.one_over_two Sample.ctx =
        BlockDisplay.Outcome.done b ∧
      b.type = BlockDisplay.BlockType.BASIC ∧
      b.children.map BlockDisplay.Block.type =
        [BlockDisplay.BlockType.VALUE, BlockDisplay.BlockType.VALUE,
          BlockDisplay.BlockType.VALUE] ∧
      b.children.map BlockDisplay.Block.value = ["1", "/", "2"] ∧
      b.contains_frac = false :=
  ⟨by rfl, _, by rfl, by rfl, by rfl, by rfl, by rfl⟩

/-- C18: for every well-formed expression `e` with rendered token sequence
`t_0 .. t_(n-1)`, each token `t_i` has `leftaddr` equal to the `addr` of
`t_(i-1)` when `i > 0` and the empty address when `i = 0`, and `rightaddr`
equal to the `addr` of `t_(i+1)` when `i < n-1` and the empty address when
`i = n-1`; the annotation pass changes no token's type, value or `addr`. -/
theorem from_expression_neighbours (e : Expression) (ctx : Context)
    (hwf : e.well_formed = true) :
    ∃ before b,
      BlockDisplay.__from_expression (e.height + 1) e [] = BlockDisplay.Outcome.done before ∧
      BlockDisplay.from_expression e ctx = BlockDisplay.Outcome.done b ∧
      b.children.map BlockDisplay.Block.type = before.children.map BlockDisplay.Block.type ∧
      b.children.map BlockDisplay.Block.value = before.children.map BlockDisplay.Block.value ∧
      b.children.map (fun c => c.metadata.addr) =
        before.children.map (fun c => c.metadata.addr) ∧
      ∀ i tok, b.children.get? i = some tok →
        (i = 0 → tok.metadata.leftaddr = []) ∧
        (∀ prev, 0 < i → b.children.get? (i - 1) = some prev →
          tok.metadata.leftaddr = prev.metadata.addr) ∧
        (i + 1 = b.children.length → tok.metadata.rightaddr = []) ∧
        (∀ next, b.children.get? (i + 1) = some next →
          tok.metadata.rightaddr = next.metadata.addr) := by
  have hv : ∀ c ∈ (labelled_tokens e []).map BlockDisplay.token_of,
      c.type = BlockDisplay.BlockType.VALUE := by
    intro c hc
    obtain ⟨p, _, hp⟩ := List.mem_map.mp hc
    rw [← hp]
    rfl
  obtain ⟨h1, h2, h3⟩ := BlockDisplay.setup_loop_fields
    ((labelled_tokens e []).map BlockDisplay.token_of)
    ((labelled_tokens e []).map BlockDisplay.token_of) 0 hv
  refine ⟨_, _, (BlockDisplay.from_expression_eq e ctx hwf).1,
    (BlockDisplay.from_expression_eq e ctx hwf).2, h1, h2, h3, ?_⟩
  intro i tok htok
  simp only [BlockDisplay.Block.children] at htok ⊢
  have hlen : (BlockDisplay.__setup_leftright_metadata_loop
      ((labelled_tokens e []).map BlockDisplay.token_of) 0
      ((labelled_tokens e []).map BlockDisplay.token_of)).length =
      ((labelled_tokens e []).map BlockDisplay.token_of).length := by
    have := congrArg List.length h1
    simpa using this
  -- the address of a block of the result, read off the input
  have haddr : ∀ k blk, (BlockDisplay.__setup_leftright_metadata_loop
      ((labelled_tokens e []).map BlockDisplay.token_of) 0
      ((labelled_tokens e []).map BlockDisplay.token_of)).get? k = some blk →
      BlockDisplay.addr_of_child ((labelled_tokens e []).map BlockDisplay.token_of) k =
        blk.metadata.addr := by
    intro k blk hk
    obtain ⟨c, hc, hblk⟩ := BlockDisplay.setup_loop_get _ _ 0 hv k blk hk
    rw [hblk, (BlockDisplay.Block.set_leftright_fields c _ _).2.2.2.1]
    unfold BlockDisplay.addr_of_child
    rw [hc]
  obtain ⟨c, _, hc⟩ := BlockDisplay.setup_loop_get _ _ 0 hv i tok htok
  obtain ⟨_, _, _, _, fl, fr⟩ := BlockDisplay.Block.set_leftright_fields c
    (if 0 + i > 0 then BlockDisplay.addr_of_child
      ((labelled_tokens e []).map BlockDisplay.token_of) (0 + i - 1) else [])
    (if 0 + i < ((labelled_tokens e []).map BlockDisplay.token_of).length - 1 then
      BlockDisplay.addr_of_child ((labelled_tokens e []).map BlockDisplay.token_of)
        (0 + i + 1) else [])
  rw [← hc] at fl fr
  simp only [Nat.zero_add] at fl fr
  refine ⟨?_, ?_, ?_, ?_⟩
  · intro hi
    rw [fl, if_neg (by omega)]
  · intro prev hi hprev
    rw [fl, if_pos hi]
    exact haddr (i - 1) prev hprev
  · intro hi
    rw [fr, if_neg (by omega)]
  · intro next hnext
    have hlt : i + 1 < (BlockDisplay.__setup_leftright_metadata_loop
        ((labelled_tokens e []).map BlockDisplay.token_of) 0
        ((labelled_tokens e []).map BlockDisplay.token_of)).length := by
      rw [List.get?_eq_getElem?] at hnext
      exact (List.getElem?_eq_some_iff.mp hnext).1
    rw [fr, if_pos (by omega)]
    exact haddr (i + 1) next hnext

/-- C18 on `(x + 3) - f y`: the neighbour addresses of the eight tokens. -/
theorem from_expression_neighbours_witness :
    Sample.bracketed_difference.well_formed = true ∧
      (∃ b, BlockDisplay.from_expression Sample.bracketed_difference Sample.ctx =
          BlockDisplay.Outcome.done b ∧
        b.children.map (fun c => (c.value, c.metadata.addr, c.metadata.leftaddr,
            c.metadata.rightaddr)) =
          [("(", [0], [], [0, 0]), ("x", [0, 0], [0], [0]), ("+", [0], [0, 0], [0, 1]),
           ("3", [0, 1], [0], [0]), (")", [0], [0, 1], []), ("-", [], [0], [1]),
           ("f", [1], [], [1, 0]), ("y", [1, 0], [1], [])]) ∧
      ∃ before b,
        BlockDisplay.__from_expression (Sample.bracketed_difference.height + 1)
          Sample.bracketed_difference [] = BlockDisplay.Outcome.done before ∧
        BlockDisplay.from_expression Sample.bracketed_difference Sample.ctx =
          BlockDisplay.Outcome.done b ∧
        b.children.map BlockDisplay.Block.type =
          before.children.map BlockDisplay.Block.type ∧
        b.children.map BlockDisplay.Block.value =
          before.children.map BlockDisplay.Block.value ∧
        b.children.map (fun c => c.metadata.addr) =
          before.children.map (fun c => c.metadata.addr) ∧
        ∀ i tok, b.children.get? i = some tok →
          (i = 0 → tok.metadata.leftaddr = []) ∧
          (∀ prev, 0 < i → b.children.get? (i - 1) = some prev →
            tok.metadata.leftaddr = prev.metadata.addr) ∧
          (i + 1 = b.children.length → tok.metadata.rightaddr = []) ∧
          (∀ next, b.children.get? (i + 1) = some next →
            tok.metadata.rightaddr = next.metadata.addr) :=
  ⟨by rfl, ⟨_, by rfl, by rfl⟩,
    from_expression_neighbours Sample.bracketed_difference Sample.ctx (by rfl)⟩

/-- C19: for every well-formed expression `e`, the rendering ends with a
block, so no address handed to `at` while computing `from_expression(e)`
fails to resolve in `e`; and the `addr` of every emitted token is the address
of a node `n` of `e` such that the token value is the symbol of `n`, or the
token is `(` or `)` and `n` is bracketed. -/
theorem from_expression_addresses_resolve (e : Expression) (ctx : Context)
    (hwf : e.well_formed = true) :
    BlockDisplay.from_expression e ctx ≠ BlockDisplay.Outcome.out_of_range ∧
    ∃ b, BlockDisplay.from_expression e ctx = BlockDisplay.Outcome.done b ∧
      ∀ tok ∈ b.children, ∃ n, e.at tok.metadata.addr = some n ∧
        (tok.value = n.symbol ∨
          ((tok.value = "(" ∨ tok.value = ")") ∧ n.bracketed = true)) := by
  have hdone := (BlockDisplay.from_expression_eq e ctx hwf).2
  refine ⟨?_, _, hdone, ?_⟩
  · rw [hdone]
    intro h
    cases h
  intro tok htok
  obtain ⟨j, hj⟩ := List.mem_iff_get?.mp htok
  obtain ⟨p, hp, hform⟩ := BlockDisplay.rendered_token e j tok hj
  have hmem : p ∈ labelled_tokens e [] := List.mem_iff_get?.mpr ⟨j, hp⟩
  obtain ⟨n, hn, hsym⟩ := labelled_tokens_resolve e e [] rfl hwf p hmem
  obtain ⟨_, f2, _, f4, _, _⟩ := BlockDisplay.Block.set_leftright_fields
    (BlockDisplay.token_of p)
    (if 0 + j > 0 then BlockDisplay.addr_of_child
      ((labelled_tokens e []).map BlockDisplay.token_of) (0 + j - 1) else [])
    (if 0 + j < ((labelled_tokens e []).map BlockDisplay.token_of).length - 1 then
      BlockDisplay.addr_of_child ((labelled_tokens e []).map BlockDisplay.token_of)
        (0 + j + 1) else [])
  rw [← hform] at f2 f4
  refine ⟨n, ?_, ?_⟩
  · rw [f4]
    exact hn
  · rw [f2]
    exact hsym

/-- C19 on `(x + 3) - f y`. -/
theorem from_expression_addresses_resolve_witness :
    Sample.bracketed_difference.well_formed = true ∧
      (BlockDisplay.from_expression Sample.bracketed_difference Sample.ctx ≠
          BlockDisplay.Outcome.out_of_range ∧
        ∃ b, BlockDisplay.from_expression Sample.bracketed_difference Sample.ctx =
            BlockDisplay.Outcome.done b ∧
          ∀ tok ∈ b.children, ∃ n,
            Sample.bracketed_difference.at tok.metadata.addr = some n ∧
            (tok.value = n.symbol ∨
              ((tok.value = "(" ∨ tok.value = ")") ∧ n.bracketed = true))) :=
  ⟨by rfl, from_expression_addresses_resolve Sample.bracketed_difference Sample.ctx (by rfl)⟩

end Equaio
